import Mathlib

/-!
Verification development for the aura-gallery media library.

This file gives a shallow embedding of the core logic of the repository:

* the ComfyUI metadata extractor (imageParser: parseComfyUIMetadata,
  extractPromptText, extractNodeInfo),
* the AI-tagging response matcher (parseAIResponse),
* the import/dedup loop of the import routes,
* the pure aggregation code of the advanced-statistics route.

JavaScript data is modelled by the inductive type JVal.  JSON.parse is an
external builtin of the host language; it is modelled as an explicit
function parameter (a value of type String to Option JVal) wherever the
source calls it inside a try/catch.  JavaScript object iteration with
for..in follows the ECMAScript own-property order: keys that are canonical
array indices come first in ascending numeric order, remaining string keys
in insertion order; this order is modelled explicitly by forInOrder.

Machine floats are modelled by rationals; no claim below depends on
rounding.  Strings are processed through their character lists because the
byte-position based String primitives of core Lean do not reduce inside
kernel computation.
-/

/-- Lexicographic order on character lists by code point, as JavaScript
compares strings code-unit-wise (identical on the inputs appearing here). -/
def charListLe : List Char → List Char → Bool
  | [], _ => true
  | _ :: _, [] => false
  | a :: as, b :: bs =>
    if a.toNat < b.toNat then true
    else if a.toNat = b.toNat then charListLe as bs
    else false

/-- String comparison used by the model for sorting. -/
def jsLe (a b : String) : Bool := charListLe a.data b.data

/-- The relation behind every string sort in the model. -/
def strLeP (a b : String) : Prop := jsLe a b = true

instance : DecidableRel strLeP := fun a b => by unfold strLeP; infer_instance

/-- Check whether the pattern occurs as a prefix of the text. -/
def hasPrefixC : List Char → List Char → Bool
  | [], _ => true
  | _ :: _, [] => false
  | a :: as, b :: bs => if a = b then hasPrefixC as bs else false

/-- Check whether the pattern occurs anywhere inside the text, as the
JavaScript String.prototype.includes test does. -/
def hasInfixC (pat : List Char) : List Char → Bool
  | [] => pat.isEmpty
  | c :: rest => hasPrefixC pat (c :: rest) || hasInfixC pat rest

/-- Model of JavaScript includes on strings. -/
def jsIncludes (s sub : String) : Bool := hasInfixC sub.data s.data

/-- Split a character list at newline characters, modelling split with the
separator given as a one-character string. -/
def splitNlC : List Char → List (List Char)
  | [] => [[]]
  | c :: cs =>
    match splitNlC cs with
    | [] => [[]]
    | l :: ls => if c = '\n' then [] :: l :: ls else (c :: l) :: ls

/-- Model of the JavaScript split on a newline separator. -/
def jsSplitLines (s : String) : List String :=
  (splitNlC s.data).map fun l => ⟨l⟩

/-- Model of toLowerCase, character-wise. -/
def jsLower (s : String) : String := ⟨s.data.map Char.toLower⟩

/-- Whitespace recognised by trim on the ASCII inputs appearing here. -/
def isWsC (c : Char) : Bool := c = ' ' || c = '\t' || c = '\n' || c = '\r'

/-- Model of JavaScript trim. -/
def jsTrim (s : String) : String :=
  ⟨((s.data.dropWhile isWsC).reverse.dropWhile isWsC).reverse⟩

/-- Decimal digits of a natural number; the fuel argument makes the
recursion structural so that the definition reduces in the kernel. -/
def natCharsAux : Nat → Nat → List Char
  | 0, _ => []
  | fuel + 1, n =>
    if n < 10 then [Char.ofNat (48 + n)]
    else natCharsAux fuel (n / 10) ++ [Char.ofNat (48 + n % 10)]

/-- Decimal representation of a natural number. -/
def natToStr (n : Nat) : String := ⟨natCharsAux (n + 1) n⟩

/-- Numeric value of a list of decimal digit characters. -/
def charsToNat (cs : List Char) : Nat :=
  cs.foldl (fun acc c => acc * 10 + (c.toNat - 48)) 0

/-- Check that every character is a decimal digit. -/
def allDigitsC (cs : List Char) : Bool :=
  cs.all fun c => '0' ≤ c && c ≤ '9'

/-- Canonical-array-index test of ECMAScript: a string of decimal digits
with no leading zero (except the string 0 itself) whose numeric value is
below 2 to the 32 minus 1.  Such keys are enumerated first, in ascending
numeric order, by for..in. -/
def isArrayIndexKey (s : String) : Bool :=
  match s.data with
  | [] => false
  | c :: cs =>
    allDigitsC (c :: cs) &&
    (decide (c ≠ '0') || cs.isEmpty) &&
    decide (charsToNat (c :: cs) < 4294967295)

/-- Numeric value of a key, used to order array-index keys. -/
def keyNum (s : String) : Nat := charsToNat s.data

/-- JavaScript values produced by JSON.parse.  An object keeps its fields
in document (insertion) order; property iteration reorders them through
forInOrder below. -/
inductive JVal where
  | null : JVal
  | bool : Bool → JVal
  | num : ℚ → JVal
  | str : String → JVal
  | arr : List JVal → JVal
  | obj : List (String × JVal) → JVal

/-- Truthiness of a JavaScript value (null, false, 0 and the empty string
are falsy; objects and arrays are always truthy). -/
def jsTruthy : JVal → Bool
  | .null => false
  | .bool b => b
  | .num q => decide (q ≠ 0)
  | .str s => decide (s ≠ "")
  | .arr _ => true
  | .obj _ => true

/-- Truthiness of an optional value; a missing property (undefined) is
falsy. -/
def jsTruthyO : Option JVal → Bool
  | none => false
  | some v => jsTruthy v

/-- String conversion used by join and by the default array sort.  Decimal
formatting is exact for integral numbers; non-integral numbers (which no
claim exercises) are rendered from the reduced fraction. -/
def jsStr : JVal → String
  | .null => "null"
  | .bool true => "true"
  | .bool false => "false"
  | .num q =>
    if q.den = 1 then
      if q.num < 0 then "-" ++ natToStr q.num.natAbs else natToStr q.num.natAbs
    else natToStr q.num.natAbs ++ "/" ++ natToStr q.den
  | .str s => s
  | .arr _ => ""
  | .obj _ => "[object Object]"

/-- Property access v[k] on a JavaScript value; none models undefined.
Objects after JSON.parse have unique keys, so first-match lookup agrees
with object semantics; arrays expose their index properties. -/
def jget (v : JVal) (k : String) : Option JVal :=
  match v with
  | .obj fields => (fields.find? fun p => p.1 = k).map (·.2)
  | .arr xs =>
    if isArrayIndexKey k then xs.get? (keyNum k)
    else if k = "length" then some (.num xs.length)
    else none
  | _ => none

/-- Optional-chaining access a?.k. -/
def jgetO (v : Option JVal) (k : String) : Option JVal :=
  match v with
  | none => none
  | some w => jget w k

/-- Own enumerable properties of a value in document order, before the
for..in reordering: object fields as written, array elements under their
index keys, characters of a string under their index keys. -/
def rawEntries : JVal → List (String × JVal)
  | .obj fields => fields
  | .arr xs => xs.enum.map fun p => (natToStr p.1, p.2)
  | .str s => s.data.enum.map fun p => (natToStr p.1, JVal.str ⟨[p.2]⟩)
  | _ => []

/-- Ordering of property keys used by for..in: array-index keys ascending. -/
def keyLe (p q : String × JVal) : Prop := keyNum p.1 ≤ keyNum q.1

instance : DecidableRel keyLe := fun p q => by unfold keyLe; infer_instance

/-- ECMAScript for..in enumeration order over own enumerable properties:
canonical array-index keys first, sorted ascending by numeric value, then
the remaining keys in insertion order. -/
def forInOrder (fields : List (String × JVal)) : List (String × JVal) :=
  List.insertionSort keyLe (fields.filter fun p => isArrayIndexKey p.1) ++
    (fields.filter fun p => ! isArrayIndexKey p.1)

/-- Entries of a value in for..in iteration order. -/
def forInEntries (v : JVal) : List (String × JVal) := forInOrder (rawEntries v)

/-- Strict-equality comparison of the class_type property with a string
literal, as node.class_type === t evaluates in JavaScript: true exactly
when the property holds that string. -/
def classTypeIs (node : JVal) (t : String) : Bool :=
  match jget node "class_type" with
  | some (JVal.str s) => s = t
  | _ => false

/-- Text contributed by one node to the prompt: the node must have
class_type equal to the text-encoding type and a truthy text input
(node.inputs?.text uses optional chaining followed by a truthiness
test). -/
def nodeTextContribution (node : JVal) : Option JVal :=
  if classTypeIs node "CLIPTextEncode" then
    match jgetO (jget node "inputs") "text" with
    | some t => if jsTruthy t then some t else none
    | none => none
  else none

/-- Model of extractPromptText: walk the prompt mapping in for..in order,
collect the text inputs of text-encoding nodes, join with a blank line. -/
def extractPromptText (promptData : JVal) : String :=
  String.intercalate "\n\n"
    (((forInEntries promptData).filterMap fun p => nodeTextContribution p.2).map jsStr)

/-- Modelled from the spec wording of the prompt-text pass: the same
collection joined in document (JSON insertion) order, with no reordering
of keys.  This definition exists only to be compared with the behaviour of
extractPromptText. -/
def promptTextInDocumentOrder (promptData : JVal) : String :=
  String.intercalate "\n\n"
    (((rawEntries promptData).filterMap fun p => nodeTextContribution p.2).map jsStr)

/-- Dimensions captured from an empty-latent node; each coordinate is the
raw input value, none when the input is missing. -/
structure JsDims where
  width : Option JVal
  height : Option JVal
  batch_size : Option JVal

/-- One entry of the otherNodes catch-all list: the raw class_type value
(none when the node has no class_type property) and the node id. -/
structure OtherNode where
  type : Option JVal
  id : String

/-- Result record of extractNodeInfo.  Every field is none until a node of
the corresponding type assigns it; an assignment from a node whose input
is missing stores none again (undefined), never a default. -/
structure NodeInfo where
  checkpoint : Option JVal := none
  sampler : Option JVal := none
  steps : Option JVal := none
  cfg : Option JVal := none
  seed : Option JVal := none
  dimensions : Option JsDims := none
  scheduler : Option JVal := none
  denoise : Option JVal := none
  otherNodes : List OtherNode := []

/-- Node types recognised by the dispatch; anything else goes to the
otherNodes list. -/
def knownNodeTypes : List String :=
  ["CLIPTextEncode", "CheckpointLoaderSimple", "KSampler", "EmptyLatentImage",
   "SaveImage", "VAEDecode"]

/-- Whether the includes test of the catch-all branch finds the class_type
value: only a string value equal to a known type counts. -/
def isKnownType (ct : Option JVal) : Bool :=
  match ct with
  | some (JVal.str s) => knownNodeTypes.contains s
  | _ => false

/-- Processing of one node by the parameter pass: four independent if
statements, exactly as in extractNodeInfo. -/
def nodeInfoStep (info : NodeInfo) (p : String × JVal) : NodeInfo :=
  let node := p.2
  let inputs := jget node "inputs"
  let info :=
    if classTypeIs node "CheckpointLoaderSimple"
        && jsTruthyO (jgetO inputs "ckpt_name") then
      { info with checkpoint := jgetO inputs "ckpt_name" }
    else info
  let info :=
    if classTypeIs node "KSampler" then
      { info with
        sampler := jgetO inputs "sampler_name"
        steps := jgetO inputs "steps"
        cfg := jgetO inputs "cfg"
        seed := jgetO inputs "seed"
        scheduler := jgetO inputs "scheduler"
        denoise := jgetO inputs "denoise" }
    else info
  let info :=
    if classTypeIs node "EmptyLatentImage" then
      { info with dimensions := some (JsDims.mk (jgetO inputs "width") (jgetO inputs "height") (jgetO inputs "batch_size")) }
    else info
  if isKnownType (jget node "class_type") then info
  else { info with otherNodes := info.otherNodes ++ [⟨jget node "class_type", p.1⟩] }

/-- Model of extractNodeInfo: fold the parameter pass over the mapping in
for..in order, starting from the all-null record. -/
def extractNodeInfo (promptData : JVal) : NodeInfo :=
  (forInEntries promptData).foldl nodeInfoStep {}

/-- One chunk produced by the container parser: a four-character type name
and the payload.  The payload bytes are modelled as characters (the
keyword and the keys compared against are ASCII, where the UTF-8 decode of
the source is the identity); the NUL separator is the character of code
zero. -/
structure PngChunk where
  name : String
  data : String

/-- Result record of parseComfyUIMetadata. -/
structure MetaResult where
  workflow : Option JVal
  prompt : Option String
  nodeInfo : Option NodeInfo
  hasMetadata : Bool

/-- Split the payload of a keyed-text chunk at its first NUL byte into
keyword and value; none when no NUL byte occurs (the loop then skips the
chunk). -/
def splitAtNull (data : String) : Option (String × String) :=
  let cs := data.data
  if (cs.filter fun c => c.toNat = 0).isEmpty then none
  else some (⟨cs.takeWhile fun c => ¬ c.toNat = 0⟩,
             ⟨(cs.dropWhile fun c => ¬ c.toNat = 0).drop 1⟩)

/-- Mutable state of the chunk-scanning loop. -/
structure ScanState where
  workflowData : Option JVal := none
  promptText : Option String := none
  nodeInfo : Option NodeInfo := none

/-- Processing of one chunk by the scanning loop of parseComfyUIMetadata.
jp models the JSON.parse builtin; a parse failure (none) leaves the state
untouched, exactly as the try/catch in the source logs and continues. -/
def scanChunk (jp : String → Option JVal) (st : ScanState) (chunk : PngChunk) :
    ScanState :=
  if chunk.name = "tEXt" then
    match splitAtNull chunk.data with
    | none => st
    | some (keyword, value) =>
      if keyword = "workflow" then
        match jp value with
        | some w => { st with workflowData := some w }
        | none => st
      else if keyword = "prompt" then
        match jp value with
        | some promptData =>
          { st with
            promptText := some (extractPromptText promptData)
            nodeInfo := some (extractNodeInfo promptData) }
        | none => st
      else st
  else st

/-- Model of parseComfyUIMetadata on an already-extracted chunk list: scan
every chunk, then report; the has-metadata flag is the JavaScript
truthiness of workflowData or of the extracted prompt text, so a decoded
but falsy workflow value (null, false, 0, the empty string) does not set
it, and neither does an empty prompt string. -/
def parseComfyUIMetadata (jp : String → Option JVal) (chunks : List PngChunk) :
    MetaResult :=
  let st := chunks.foldl (scanChunk jp) {}
  { workflow := st.workflowData
    prompt := st.promptText
    nodeInfo := st.nodeInfo
    hasMetadata := jsTruthyO st.workflowData ||
      (match st.promptText with
       | some s => decide (s ≠ "")
       | none => false) }

/-- Alternatives of the category-stripping regular expression of
extractFromLine, in alternation order. -/
def catPatterns : List (List Char) :=
  [("clothing:" : String).data, ("setting:" : String).data,
   ("pose:" : String).data, ("mood:" : String).data,
   ("rating:" : String).data, ("content rating:" : String).data]

/-- First alternative matching at the current position, returning the rest
of the text after the match. -/
def firstPatMatch (cs : List Char) : Option (List Char) :=
  match catPatterns.find? fun p => hasPrefixC p cs with
  | some p => some (cs.drop p.length)
  | none => none

/-- Global replacement of every category label with the empty string.  The
fuel argument keeps the recursion structural; it is always at least the
length of the text, and every step consumes at least one character. -/
def stripCats : Nat → List Char → List Char
  | 0, cs => cs
  | _ + 1, [] => []
  | fuel + 1, c :: cs =>
    match firstPatMatch (c :: cs) with
    | some rest => stripCats fuel rest
    | none => c :: stripCats fuel cs

/-- Model of extractFromLine: strip the category labels, then trim.  The
lines fed to it are already lowercased, so the case-insensitive flag of
the source regex is the identity here. -/
def extractFromLine (line : String) : String :=
  jsTrim ⟨stripCats (line.data.length + 1) line.data⟩

/-- One conditional tag push: the singleton tag when the condition holds,
nothing otherwise. -/
def tagIf (cond : Bool) (tag : String) : List String :=
  if cond then [tag] else []

/-- Clothing tags contributed by one (lowercased) line. -/
def clothingTags (line : String) : List String :=
  if jsIncludes line "clothing:" then
    let c := extractFromLine line
    tagIf (jsIncludes c "lingerie") "lingerie" ++
    tagIf (jsIncludes c "bikini") "bikini" ++
    tagIf (jsIncludes c "underwear") "underwear" ++
    tagIf (jsIncludes c "topless") "topless" ++
    tagIf (jsIncludes c "nude") "nude" ++
    tagIf (jsIncludes c "fully clothed" || jsIncludes c "dressed") "fully clothed" ++
    tagIf (jsIncludes c "casual") "casual" ++
    tagIf (jsIncludes c "formal") "formal"
  else []

/-- Setting tags contributed by one line. -/
def settingTags (line : String) : List String :=
  if jsIncludes line "setting:" then
    let c := extractFromLine line
    tagIf (jsIncludes c "bedroom") "bedroom" ++
    tagIf (jsIncludes c "bathroom") "bathroom" ++
    tagIf (jsIncludes c "outdoor") "outdoor" ++
    tagIf (jsIncludes c "studio") "studio" ++
    tagIf (jsIncludes c "kitchen") "kitchen" ++
    tagIf (jsIncludes c "living room") "living room"
  else []

/-- Pose tags contributed by one line. -/
def poseTags (line : String) : List String :=
  if jsIncludes line "pose:" then
    let c := extractFromLine line
    tagIf (jsIncludes c "standing") "standing" ++
    tagIf (jsIncludes c "sitting") "sitting" ++
    tagIf (jsIncludes c "lying" || jsIncludes c "laying") "lying down" ++
    tagIf (jsIncludes c "kneeling") "kneeling"
  else []

/-- Mood tags contributed by one line. -/
def moodTags (line : String) : List String :=
  if jsIncludes line "mood:" then
    let c := extractFromLine line
    tagIf (jsIncludes c "professional") "professional" ++
    tagIf (jsIncludes c "casual") "casual" ++
    tagIf (jsIncludes c "playful") "playful" ++
    tagIf (jsIncludes c "sultry") "sultry" ++
    tagIf (jsIncludes c "intimate") "intimate"
  else []

/-- Rating tag contributed by one line, with the detected flag; an
unrecognisable rating line contributes nothing and leaves the flag unset. -/
def ratingLineTags (line : String) : List String × Bool :=
  if jsIncludes line "rating:" || jsIncludes line "content rating:" then
    if jsIncludes line "x-rated" || jsIncludes line "x rated" ||
        jsIncludes line "explicit" then (["Rated: X"], true)
    else if jsIncludes line "r-rated" || jsIncludes line "r rated" ||
        jsIncludes line " r " || jsIncludes line " r:" then (["Rated: R"], true)
    else if jsIncludes line "pg" then (["Rated: PG"], true)
    else ([], false)
  else ([], false)

/-- Tags pushed by one iteration of the line loop. -/
def lineTags (line : String) : List String × Bool :=
  let r := ratingLineTags line
  (clothingTags line ++ settingTags line ++ poseTags line ++ moodTags line ++ r.1,
   r.2)

/-- One iteration of the line loop on the accumulated state. -/
def collectStep (st : List String × Bool) (line : String) : List String × Bool :=
  (st.1 ++ (lineTags line).1, st.2 || (lineTags line).2)

/-- The full line loop: accumulated tag list and hasRating flag. -/
def collectTags (lines : List String) : List String × Bool :=
  lines.foldl collectStep ([], false)

/-- Deduplication keeping the first occurrence of each element, as the
spread of a JavaScript Set does. -/
def jsDedupAux : List String → List String → List String
  | [], _ => []
  | a :: t, seen =>
    if seen.contains a then jsDedupAux t seen else a :: jsDedupAux t (a :: seen)

/-- Model of removing duplicates through a Set. -/
def jsDedup (l : List String) : List String := jsDedupAux l []

/-- Default rating assigned from the clothing tags when no rating line was
detected: the most severe rating implied. -/
def defaultRating (tags : List String) : String :=
  if tags.contains "nude" then "Rated: X"
  else if tags.contains "topless" || tags.contains "lingerie" ||
      tags.contains "underwear" then "Rated: R"
  else "Rated: PG"

/-- Model of parseAIResponse: lowercase, split into lines, collect tags,
append the mandatory default rating when none was detected, deduplicate. -/
def parseAIResponse (aiText : String) : List String :=
  let lines := jsSplitLines (jsLower aiText)
  let st := collectTags lines
  let tags := if st.2 then st.1 else st.1 ++ [defaultRating st.1]
  jsDedup tags

/-- Whether a tag is one of the three rating tags. -/
def isRatingTag (t : String) : Bool :=
  t = "Rated: X" || t = "Rated: R" || t = "Rated: PG"

/-- The rating tags among a tag list. -/
def ratingTags (l : List String) : List String := l.filter isRatingTag

/-- One candidate file of the source directory, with its own creation
timestamp in milliseconds as read by stat. -/
structure SrcFile where
  filename : String
  birthtimeMs : Int
deriving DecidableEq

/-- One row of the images table, restricted to the columns the dedup and
collision lookups touch. -/
structure ImgRec where
  owner : Nat
  filename : String
  fileCreatedAt : Int
deriving DecidableEq

/-- Counters of the import results (the error counter and the detail list
are omitted: the modelled loop body is total, and no claim mentions the
details). -/
structure ImportResults where
  imported : Nat
  skipped : Nat
deriving DecidableEq

/-- Lookup modelling SELECT id FROM images WHERE filename AND owner_id AND
file_created_at match. -/
def exactMatch (db : List ImgRec) (uid : Nat) (fn : String) (ts : Int) : Bool :=
  db.any fun r => r.filename = fn && r.owner = uid && r.fileCreatedAt = ts

/-- Lookup modelling SELECT id FROM images WHERE filename AND owner_id
match. -/
def nameMatch (db : List ImgRec) (uid : Nat) (fn : String) : Bool :=
  db.any fun r => r.filename = fn && r.owner = uid

/-- Split a filename into stem and extension as path.extname and
path.basename do: the extension starts at the last dot, except that a dot
in first position starts no extension. -/
def splitExt (fn : String) : String × String :=
  let cs := fn.data
  match ((cs.enum.filter fun p => p.2 = '.').map fun p => p.1).getLast? with
  | some i => if i = 0 then (fn, "") else (⟨cs.take i⟩, ⟨cs.drop i⟩)
  | none => (fn, "")

/-- Collision renaming: append an underscore and the current timestamp in
milliseconds before the extension. -/
def renameWithTimestamp (fn : String) (now : Nat) : String :=
  let se := splitExt fn
  se.1 ++ "_" ++ natToStr now ++ se.2

/-- One iteration of the import loop over a candidate file: skip on exact
duplicate, rename on name collision, otherwise keep the name; insert the
new row.  The filesystem copy or move and the metadata parse always
succeed in the model and do not influence classification, so only the
inserted row and the counters are tracked. -/
def importStep (uid : Nat) (now : Nat) (st : List ImgRec × ImportResults)
    (f : SrcFile) : List ImgRec × ImportResults :=
  let db := st.1
  if exactMatch db uid f.filename f.birthtimeMs then
    (db, { st.2 with skipped := st.2.skipped + 1 })
  else
    let finalFilename :=
      if nameMatch db uid f.filename then renameWithTimestamp f.filename now
      else f.filename
    (db ++ [⟨uid, finalFilename, f.birthtimeMs⟩],
     { st.2 with imported := st.2.imported + 1 })

/-- Model of the import route: fold the per-file loop over the candidate
image files (the directory listing filtered to image extensions), starting
from the current corpus.  now models Date.now during the run. -/
def importRun (uid : Nat) (now : Nat) (files : List SrcFile)
    (db : List ImgRec) : List ImgRec × ImportResults :=
  files.foldl (importStep uid now) (db, ⟨0, 0⟩)

/-- One row of the images table as the statistics route reads it: the
owner, the fields json_extract pulls out of node_info, whether the owner
has favorited the image, and the strftime projections of created_at
(month as the %Y-%m string, dow as the %w weekday number, Sunday 0). -/
structure ImageRow where
  owner : Nat
  checkpoint : Option String
  sampler : Option String
  steps : Option Int
  cfg : Option ℚ
  favorited : Bool
  month : String
  dow : Nat

/-- Rows of one owner, as every query of the route restricts to
owner_id. -/
def rowsOf (corpus : List ImageRow) (uid : Nat) : List ImageRow :=
  corpus.filter fun r => r.owner = uid

/-- Distinct elements in first-occurrence order, modelling both SQL GROUP
BY keys and JavaScript Map key order. -/
def dedupFirstAux [DecidableEq α] : List α → List α → List α
  | [], _ => []
  | a :: t, seen =>
    if seen.contains a then dedupFirstAux t seen
    else a :: dedupFirstAux t (a :: seen)

/-- Distinct elements of a list in first-occurrence order. -/
def dedupFirst [DecidableEq α] (l : List α) : List α := dedupFirstAux l []

/-- Descending order by a natural-number measure, for ORDER BY count DESC
and the JavaScript comparator b minus a. -/
def byMeasureGe (f : α → Nat) (p q : α) : Prop := f q ≤ f p

instance (f : α → Nat) : DecidableRel (byMeasureGe f) := fun p q => by
  unfold byMeasureGe; infer_instance

/-- Descending order by a string measure, for ORDER BY month DESC. -/
def byStrGe (f : α → String) (p q : α) : Prop := jsLe (f q) (f p) = true

instance (f : α → String) : DecidableRel (byStrGe f) := fun p q => by
  unfold byStrGe; infer_instance

/-- Output row of the favorite-rate-by-checkpoint section. -/
structure CkptRateRow where
  checkpoint : String
  totalImages : Nat
  favorites : Nat
  rate : ℚ

/-- Rows of one checkpoint group. -/
def ckptGroup (rows : List ImageRow) (ck : String) : List ImageRow :=
  rows.filter fun r => r.checkpoint = some ck

/-- Model of the favoritesByCheckpoint query plus the qualityMetrics map:
group the rows with a non-null checkpoint by checkpoint, order by total
descending, and attach the guarded favorite rate. -/
def favoriteRateByCheckpoint (rows : List ImageRow) : List CkptRateRow :=
  let keys := dedupFirst (rows.filterMap (·.checkpoint))
  let groups := keys.map fun ck =>
    let g := ckptGroup rows ck
    (ck, g.length, (g.filter (·.favorited)).length)
  (List.insertionSort (byMeasureGe fun t => t.2.1) groups).map fun t =>
    { checkpoint := t.1, totalImages := t.2.1, favorites := t.2.2,
      rate := if 0 < t.2.1 then (t.2.2 : ℚ) / (t.2.1 : ℚ) else 0 }

/-- One row of the checkpointStats query, grouped by checkpoint and
sampler; the averages are none when every steps (cfg) value of the group
is null, as SQL AVG ignores nulls and returns NULL on an empty set. -/
structure CkptStatRow where
  checkpoint : String
  count : Nat
  avg_steps : Option ℚ
  avg_cfg : Option ℚ
  sampler : Option String
  favorites : Nat

/-- Model of the checkpointStats query (GROUP BY checkpoint, sampler over
rows with a non-null checkpoint); group order is modelled as
first-occurrence order. -/
def checkpointStats (rows : List ImageRow) : List CkptStatRow :=
  let keys := dedupFirst
    (rows.filterMap fun r => r.checkpoint.map fun ck => (ck, r.sampler))
  keys.map fun k =>
    let g := rows.filter fun r => r.checkpoint = some k.1 && r.sampler == k.2
    let sVals := g.filterMap (·.steps)
    let cVals := g.filterMap (·.cfg)
    { checkpoint := k.1
      count := g.length
      avg_steps :=
        if sVals.isEmpty then none
        else some ((sVals.map fun v => (v : ℚ)).sum / (sVals.length : ℚ))
      avg_cfg :=
        if cVals.isEmpty then none
        else some (cVals.sum / (cVals.length : ℚ))
      sampler := k.2
      favorites := (g.filter (·.favorited)).length }

/-- Accumulator entry of the checkpointMap fold. -/
structure CpAgg where
  checkpoint : String
  count : Nat
  avgSteps : ℚ
  avgCfg : ℚ
  favorites : Nat
  samplers : List (String × Nat)

/-- Increment of a JavaScript Map counter by n, keeping insertion order:
an existing key is updated in place, a new key is appended. -/
def jsMapIncrBy (m : List (String × Nat)) (k : String) (n : Nat) :
    List (String × Nat) :=
  if m.any fun p => p.1 = k then
    m.map fun p => if p.1 = k then (p.1, p.2 + n) else p
  else m ++ [(k, n)]

/-- Update of one checkpointMap entry by one query row.  A null average
multiplied by the count contributes 0, as null coerces to 0 in JavaScript
arithmetic; the sampler counter is updated only when the sampler value is
truthy, so a null or empty-string sampler is skipped as the if statement
of the source does. -/
def cpUpdate (row : CkptStatRow) (cp : CpAgg) : CpAgg :=
  { cp with
    count := cp.count + row.count
    avgSteps := cp.avgSteps + (row.avg_steps.getD 0) * (row.count : ℚ)
    avgCfg := cp.avgCfg + (row.avg_cfg.getD 0) * (row.count : ℚ)
    favorites := cp.favorites + row.favorites
    samplers :=
      match row.sampler with
      | some s => if s ≠ "" then jsMapIncrBy cp.samplers s row.count
                  else cp.samplers
      | none => cp.samplers }

/-- The checkpointMap fold: entries are created on first sight of a
checkpoint (Map insertion order) and updated in place afterwards. -/
def cpFold (acc : List CpAgg) (row : CkptStatRow) : List CpAgg :=
  if acc.any fun c => c.checkpoint = row.checkpoint then
    acc.map fun c => if c.checkpoint = row.checkpoint then cpUpdate row c else c
  else acc ++ [cpUpdate row ⟨row.checkpoint, 0, 0, 0, 0, []⟩]

/-- Output row of the checkpoint deep dive. -/
structure DeepDiveRow where
  checkpoint : String
  count : Nat
  avgSteps : ℚ
  avgCfg : ℚ
  favoriteRate : ℚ
  commonSamplers : List String

/-- Model of checkpointDeepDive.byCheckpoint: aggregate the grouped query
rows per checkpoint, convert, and sort by count descending. -/
def checkpointDeepDive (rows : List ImageRow) : List DeepDiveRow :=
  let aggs := (checkpointStats rows).foldl cpFold []
  List.insertionSort (byMeasureGe fun r : DeepDiveRow => r.count)
    (aggs.map fun cp =>
      { checkpoint := cp.checkpoint
        count := cp.count
        avgSteps := cp.avgSteps / (cp.count : ℚ)
        avgCfg := cp.avgCfg / (cp.count : ℚ)
        favoriteRate := if 0 < cp.count then (cp.favorites : ℚ) / (cp.count : ℚ) else 0
        commonSamplers :=
          ((List.insertionSort (byMeasureGe fun p : String × Nat => p.2)
            cp.samplers).take 3).map (·.1) })

/-- One row of the stepsData or cfgData query: a distinct parameter value
with its image count and favorite count. -/
structure ParamGroup (α : Type) where
  value : α
  count : Nat
  favorites : Nat

/-- Model of the stepsData query: GROUP BY steps over rows with non-null
steps. -/
def stepsData (rows : List ImageRow) : List (ParamGroup Int) :=
  (dedupFirst (rows.filterMap (·.steps))).map fun v =>
    let g := rows.filter fun r => r.steps = some v
    ⟨v, g.length, (g.filter (·.favorited)).length⟩

/-- Model of the cfgData query: GROUP BY cfg over rows with non-null
cfg. -/
def cfgData (rows : List ImageRow) : List (ParamGroup ℚ) :=
  (dedupFirst (rows.filterMap (·.cfg))).map fun v =>
    let g := rows.filter fun r => r.cfg = some v
    ⟨v, g.length, (g.filter (·.favorited)).length⟩

/-- One fixed histogram range with inclusive bounds. -/
structure BucketRange (α : Type) where
  label : String
  lo : α
  hi : α

/-- The five fixed steps ranges of the route. -/
def stepsRanges : List (BucketRange Int) :=
  [⟨"1-10", 1, 10⟩, ⟨"11-20", 11, 20⟩, ⟨"21-30", 21, 30⟩,
   ⟨"31-50", 31, 50⟩, ⟨"50+", 51, 999⟩]

/-- The five fixed CFG ranges of the route. -/
def cfgRanges : List (BucketRange ℚ) :=
  [⟨"1-3", 1, 3⟩, ⟨"3-5", 3, 5⟩, ⟨"5-7", 5, 7⟩, ⟨"7-10", 7, 10⟩,
   ⟨"10+", 10, 999⟩]

/-- Membership of a value in a range, as the filter d.value between min
and max (both bounds inclusive) evaluates it. -/
def inBucket [LinearOrder α] (r : BucketRange α) (v : α) : Bool :=
  r.lo ≤ v && v ≤ r.hi

/-- Output bucket of a parameter histogram. -/
structure BucketOut where
  range : String
  count : Nat
  favoriteRate : ℚ

/-- Model of stepsDistribution and cfgDistribution: for each fixed range,
sum the counts and favorites of the value groups falling in the range and
attach the guarded favorite rate. -/
def distributionOf [LinearOrder α] (ranges : List (BucketRange α))
    (data : List (ParamGroup α)) : List BucketOut :=
  ranges.map fun r =>
    let filtered := data.filter fun d => inBucket r d.value
    let totalCount := (filtered.map (·.count)).sum
    let totalFavorites := (filtered.map (·.favorites)).sum
    ⟨r.label, totalCount,
     if 0 < totalCount then (totalFavorites : ℚ) / (totalCount : ℚ) else 0⟩

/-- Output row of the topSamplers section. -/
structure SamplerOut where
  sampler : String
  count : Nat
  favoriteRate : ℚ

/-- Model of the topSamplers query and map: GROUP BY sampler over rows
with a non-null sampler, order by count descending, take 10, attach the
guarded rate. -/
def topSamplersOf (rows : List ImageRow) : List SamplerOut :=
  let keys := dedupFirst (rows.filterMap (·.sampler))
  let groups := keys.map fun s =>
    let g := rows.filter fun r => r.sampler = some s
    (s, g.length, (g.filter (·.favorited)).length)
  ((List.insertionSort (byMeasureGe fun t => t.2.1) groups).take 10).map fun t =>
    ⟨t.1, t.2.1, if 0 < t.2.1 then (t.2.2 : ℚ) / (t.2.1 : ℚ) else 0⟩

/-- Every favorite-rate field of the advanced-statistics response, in
order of appearance. -/
def statsRates (rows : List ImageRow) : List ℚ :=
  (favoriteRateByCheckpoint rows).map (·.rate) ++
  (checkpointDeepDive rows).map (·.favoriteRate) ++
  (distributionOf stepsRanges (stepsData rows)).map (·.favoriteRate) ++
  (distributionOf cfgRanges (cfgData rows)).map (·.favoriteRate) ++
  (topSamplersOf rows).map (·.favoriteRate)

/-- One entry of the by-month output. -/
structure MonthCount where
  month : String
  count : Nat
deriving DecidableEq

/-- Model of the imagesByMonth query: GROUP BY the %Y-%m month string,
ORDER BY month DESC, LIMIT 12. -/
def imagesByMonth (rows : List ImageRow) : List MonthCount :=
  ((List.insertionSort (byStrGe fun m : MonthCount => m.month)
    ((dedupFirst (rows.map (·.month))).map fun m =>
      ⟨m, (rows.filter fun r => r.month = m).length⟩)).take 12)

/-- Weekday names of the CASE expression, Sunday first.  The result for a
number above 6 models the NULL of a CASE without ELSE; strftime never
produces one. -/
def dayName : Nat → String
  | 0 => "Sun"
  | 1 => "Mon"
  | 2 => "Tue"
  | 3 => "Wed"
  | 4 => "Thu"
  | 5 => "Fri"
  | 6 => "Sat"
  | _ => ""

/-- One entry of the by-day-of-week output. -/
structure DayCount where
  day : String
  count : Nat
deriving DecidableEq

/-- Model of the imagesByDayOfWeek query: GROUP BY the weekday number,
ORDER BY it ascending; only weekdays that occur among the rows produce a
group. -/
def imagesByDayOfWeek (rows : List ImageRow) : List DayCount :=
  (List.insertionSort (fun a b : Nat => a ≤ b)
    (dedupFirst (rows.map (·.dow)))).map fun d =>
      ⟨dayName d, (rows.filter fun r => r.dow = d).length⟩

/-- The timeInsights section. -/
structure TimeInsightsOut where
  generationsByMonth : List MonthCount
  generationsByDayOfWeek : List DayCount
  productivityTrend : List MonthCount

/-- Model of timeInsights: the by-month rows reversed into chronological
order, the by-day rows as queried, and the trend as the unreversed month
rows. -/
def timeInsights (rows : List ImageRow) : TimeInsightsOut :=
  { generationsByMonth := (imagesByMonth rows).reverse
    generationsByDayOfWeek := imagesByDayOfWeek rows
    productivityTrend := imagesByMonth rows }

/-- Name extraction for one auxiliary-model entry: a string is used as is,
otherwise the name property when it is truthy, otherwise the value
itself. -/
def loraNameVal (l : JVal) : JVal :=
  match l with
  | .str _ => l
  | _ =>
    match jget l "name" with
    | some n => if jsTruthy n then n else l
    | none => l

/-- Order of the default JavaScript array sort: elements compared through
their string conversion. -/
def jvalStrLe (a b : JVal) : Prop := jsLe (jsStr a) (jsStr b) = true

instance : DecidableRel jvalStrLe := fun a b => by
  unfold jvalStrLe; infer_instance

/-- Model of the combination key: map the entries to their names, sort
with the default array sort, join with a vertical bar.  Map keys are
modelled through the string conversion; every claim below restricts the
entries to names that already are strings. -/
def comboKey (loras : List JVal) : String :=
  String.intercalate "|"
    ((List.insertionSort jvalStrLe (loras.map loraNameVal)).map jsStr)

/-- Processing of one loraData row: a row whose loras text failed to parse
(none) is skipped by the catch; an array counts each entry individually
and, when it has two or more entries, increments the combination bucket
keyed by comboKey.  A non-array parse result is skipped. -/
def loraRowStep (st : List (String × Nat) × List (String × Nat))
    (row : Option JVal) : List (String × Nat) × List (String × Nat) :=
  match row with
  | none => st
  | some v =>
    match v with
    | .arr loras =>
      if 0 < loras.length then
        let freq := loras.foldl
          (fun m l => jsMapIncrBy m (jsStr (loraNameVal l)) 1) st.1
        let combos :=
          if 1 < loras.length then jsMapIncrBy st.2 (comboKey loras) 1
          else st.2
        (freq, combos)
      else st
    | _ => st

/-- The loraCombos accumulator map after processing every row: bucket keys
with their counts in insertion order. -/
def loraCombosOf (rows : List (Option JVal)) : List (String × Nat) :=
  (rows.foldl loraRowStep ([], [])).2

/-- Graph whose node ids appear in the JSON document as 10 before 2: the
decoder inserts them in that order, but for..in enumerates the numeric
keys ascending. -/
def c1Graph : JVal :=
  JVal.obj
    [("10", JVal.obj [("class_type", JVal.str "CLIPTextEncode"),
       ("inputs", JVal.obj [("text", JVal.str "b")])]),
     ("2", JVal.obj [("class_type", JVal.str "CLIPTextEncode"),
       ("inputs", JVal.obj [("text", JVal.str "a")])])]

/-- Fields of the witness graph for C1: array-index keys in ascending
document order. -/
def c1AscFields : List (String × JVal) :=
  [("1", JVal.obj [("class_type", JVal.str "CLIPTextEncode"),
     ("inputs", JVal.obj [("text", JVal.str "x")])]),
   ("2", JVal.obj [("class_type", JVal.str "CLIPTextEncode"),
     ("inputs", JVal.obj [("text", JVal.str "y")])])]

/-- Whether a node entry dispatches to the sampler branch. -/
def isKSNode (p : String × JVal) : Bool := classTypeIs p.2 "KSampler"

/-- The six fields of the result record that only the sampler branch
writes. -/
def samplerFields (i : NodeInfo) :
    Option JVal × Option JVal × Option JVal × Option JVal × Option JVal ×
      Option JVal :=
  (i.sampler, i.steps, i.cfg, i.seed, i.scheduler, i.denoise)

/-- Witness graph for C2: one sampler node whose inputs hold only
steps. -/
def c2Fields : List (String × JVal) :=
  [("3", JVal.obj [("class_type", JVal.str "KSampler"),
     ("inputs", JVal.obj [("steps", JVal.num 20)])])]

/-- Row of a different owner, for the C5 witness corpus. -/
def c5Row : ImageRow := ⟨2, none, none, none, none, false, "2024-01", 0⟩

/-- JSON.parse stand-in for the C4 witness: only the empty object document
parses. -/
def c4jp : String → Option JVal :=
  fun s => if s = "\x7b\x7d" then some (JVal.obj []) else none

/-- Witness container: a valid workflow chunk followed by a prompt chunk
whose value is truncated JSON. -/
def c4Chunks : List PngChunk :=
  [⟨"tEXt", ⟨("workflow" : String).data ++ Char.ofNat 0 :: ("\x7b\x7d" : String).data⟩⟩,
   ⟨"tEXt", ⟨("prompt" : String).data ++ Char.ofNat 0 :: ("\x7bbad" : String).data⟩⟩]

/-- Witness graph for C10: a single unrecognised node and no text-encoding
node. -/
def c10Graph : JVal :=
  JVal.obj [("7", JVal.obj [("class_type", JVal.str "SaveImage")])]

/-- JSON.parse stand-in for the C10 witness. -/
def c10jp : String → Option JVal :=
  fun s => if s = "\x7b\x7dg" then some c10Graph else none

/-- JSON.parse stand-in for the falsy-workflow counterexamples: the
document null parses to the JSON null value, everything else fails. -/
def nullJp : String → Option JVal :=
  fun s => if s = "null" then some JVal.null else none

/-- Container whose workflow chunk decodes successfully to the falsy JSON
value null, followed by a prompt chunk with truncated invalid JSON. -/
def nullWfChunks : List PngChunk :=
  [⟨"tEXt", ⟨("workflow" : String).data ++ Char.ofNat 0 :: ("null" : String).data⟩⟩,
   ⟨"tEXt", ⟨("prompt" : String).data ++ Char.ofNat 0 :: ("\x7bbad" : String).data⟩⟩]

/-- Container whose only chunk is the falsy-decoding workflow chunk. -/
def nullWfOnlyChunks : List PngChunk :=
  [⟨"tEXt", ⟨("workflow" : String).data ++ Char.ofNat 0 :: ("null" : String).data⟩⟩]

/-- Per-bucket counts of a distribution. -/
def bucketCounts [LinearOrder α] (ranges : List (BucketRange α))
    (data : List (ParamGroup α)) : List Nat :=
  ranges.map fun r => ((data.filter fun d => inBucket r d.value).map (·.count)).sum

/-- Corpus row for the C7 counterexample: one image created on a Monday
(weekday 1). -/
def c7Row : ImageRow := ⟨1, none, none, none, none, false, "2024-01", 1⟩

theorem char_eq_of_toNat_eq {a b : Char} (h : a.toNat = b.toNat) : a = b := by
  have : a.val = b.val := by
    apply UInt32.eq_of_toBitVec_eq
    apply BitVec.eq_of_toNat_eq
    exact h
  exact Char.eq_of_val_eq this

theorem charListLe_total (a b : List Char) :
    charListLe a b = true ∨ charListLe b a = true := by
  induction a generalizing b with
  | nil => left; rfl
  | cons x xs ih =>
    cases b with
    | nil => right; rfl
    | cons y ys =>
      by_cases hxy : x.toNat < y.toNat
      · left; simp [charListLe, hxy]
      · by_cases hyx : y.toNat < x.toNat
        · right; simp [charListLe, hyx]
        · have hv : x.toNat = y.toNat := le_antisymm (not_lt.mp hyx) (not_lt.mp hxy)
          rcases ih ys with h | h
          · left; simp [charListLe, hv, h, lt_irrefl]
          · right; simp [charListLe, hv.symm, h, lt_irrefl]

theorem charListLe_trans {a b c : List Char} (h₁ : charListLe a b = true)
    (h₂ : charListLe b c = true) : charListLe a c = true := by
  induction a generalizing b c with
  | nil => rfl
  | cons x xs ih =>
    cases b with
    | nil => simp [charListLe] at h₁
    | cons y ys =>
      cases c with
      | nil => simp [charListLe] at h₂
      | cons z zs =>
        simp only [charListLe] at h₁ h₂ ⊢
        split_ifs at h₁ with hxy hxyE
        · split_ifs at h₂ with hyz hyzE
          · have : x.toNat < z.toNat := lt_trans hxy hyz
            simp [this]
          · have : x.toNat < z.toNat := hyzE ▸ hxy
            simp [this]
        · split_ifs at h₂ with hyz hyzE
          · have : x.toNat < z.toNat := hxyE ▸ hyz
            simp [this]
          · have hxz : x.toNat = z.toNat := hxyE.trans hyzE
            have := ih h₁ h₂
            simp [hxz, this, lt_irrefl]

theorem charListLe_antisymm {a b : List Char} (h₁ : charListLe a b = true)
    (h₂ : charListLe b a = true) : a = b := by
  induction a generalizing b with
  | nil =>
    cases b with
    | nil => rfl
    | cons y ys => simp [charListLe] at h₂
  | cons x xs ih =>
    cases b with
    | nil => simp [charListLe] at h₁
    | cons y ys =>
      simp only [charListLe] at h₁ h₂
      split_ifs at h₁ with hxy hxyE
      · simp [lt_asymm hxy, (lt_iff_le_and_ne.mp hxy).2.symm] at h₂
      · have : x = y := char_eq_of_toNat_eq hxyE
        subst this
        simp [lt_irrefl] at h₂
        rw [ih h₁ h₂]

instance : IsTotal String strLeP :=
  ⟨fun a b => charListLe_total a.data b.data⟩

instance : IsTrans String strLeP :=
  ⟨fun _ _ _ h₁ h₂ => charListLe_trans h₁ h₂⟩

theorem string_eq_of_data_eq {a b : String} (h : a.data = b.data) : a = b := by
  cases a; cases b; simp_all

instance : IsAntisymm String strLeP :=
  ⟨fun _ _ h₁ h₂ => string_eq_of_data_eq (charListLe_antisymm h₁ h₂)⟩

instance : IsTotal (String × JVal) keyLe :=
  ⟨fun p q => Nat.le_total (keyNum p.1) (keyNum q.1)⟩

instance : IsTrans (String × JVal) keyLe :=
  ⟨fun _ _ _ h₁ h₂ => Nat.le_trans h₁ h₂⟩

instance (f : α → Nat) : IsTotal α (byMeasureGe f) :=
  ⟨fun p q => Nat.le_total (f q) (f p)⟩

instance (f : α → Nat) : IsTrans α (byMeasureGe f) :=
  ⟨fun _ _ _ h₁ h₂ => Nat.le_trans h₂ h₁⟩

instance (f : α → String) : IsTotal α (byStrGe f) :=
  ⟨fun p q => charListLe_total (f q).data (f p).data⟩

instance (f : α → String) : IsTrans α (byStrGe f) :=
  ⟨fun _ _ _ h₁ h₂ => charListLe_trans h₂ h₁⟩

instance : IsTotal JVal jvalStrLe :=
  ⟨fun a b => charListLe_total (jsStr a).data (jsStr b).data⟩

instance : IsTrans JVal jvalStrLe :=
  ⟨fun _ _ _ h₁ h₂ => charListLe_trans h₁ h₂⟩

/-- C1, counterexample: on a graph whose node entries appear in the JSON
document with key 10 before key 2, the document-order join would be the
text of node 10 first, but extractPromptText joins the text of node 2
first, because the numeric keys are re-sorted ascending by property
enumeration; so the output does not list the segments in document
order. -/
theorem C1_counterexample :
    promptTextInDocumentOrder c1Graph = "b\n\na" ∧
    extractPromptText c1Graph = "a\n\nb" ∧
    ("a\n\nb" : String) ≠ "b\n\na" :=
  ⟨rfl, rfl, by decide⟩

/-- C1, amended: the prompt-text pass joins the text inputs of the
text-encoding nodes with a blank-line separator in for..in enumeration
order (integer-like keys ascending first); this coincides with the
document order of the node entries exactly when the keys are array-index
keys already listed in ascending numeric order, as in the common tool
output. -/
theorem C1_prompt_text_order (fields : List (String × JVal))
    (hidx : ∀ p ∈ fields, isArrayIndexKey p.1 = true)
    (hasc : fields.Pairwise fun p q => keyNum p.1 < keyNum q.1) :
    extractPromptText (JVal.obj fields) =
      promptTextInDocumentOrder (JVal.obj fields) := by
  have h1 : (fields.filter fun p => isArrayIndexKey p.1) = fields :=
    List.filter_eq_self.mpr hidx
  have h2 : (fields.filter fun p => ! isArrayIndexKey p.1) = [] := by
    rw [List.filter_eq_nil_iff]
    intro a ha
    simp [hidx a ha]
  have hs : List.Sorted keyLe fields := hasc.imp fun h => le_of_lt h
  have hfi : forInOrder fields = fields := by
    rw [forInOrder, h1, h2, List.append_nil, hs.insertionSort_eq]
  rw [extractPromptText, promptTextInDocumentOrder, forInEntries]
  rw [show rawEntries (JVal.obj fields) = fields from rfl, hfi]

/-- C1, witness for the amended theorem at a concrete ascending graph. -/
theorem C1_prompt_text_order_witness :
    extractPromptText (JVal.obj c1AscFields) =
      promptTextInDocumentOrder (JVal.obj c1AscFields) :=
  C1_prompt_text_order c1AscFields (by decide) (by decide)

theorem nodeInfoStep_samplerFields_of_not_ks {info : NodeInfo}
    {p : String × JVal} (h : isKSNode p = false) :
    samplerFields (nodeInfoStep info p) = samplerFields info := by
  unfold isKSNode at h
  simp only [nodeInfoStep, h]
  split_ifs <;> simp_all [samplerFields]

theorem foldl_samplerFields_no_ks {l : List (String × JVal)}
    (h : l.filter isKSNode = []) (info : NodeInfo) :
    samplerFields (l.foldl nodeInfoStep info) = samplerFields info := by
  induction l generalizing info with
  | nil => rfl
  | cons a t ih =>
    rw [List.filter_cons] at h
    cases ha : isKSNode a with
    | true => simp [ha] at h
    | false =>
      rw [ha] at h
      simp only [Bool.false_eq_true, ite_false] at h
      rw [List.foldl_cons, ih h, nodeInfoStep_samplerFields_of_not_ks ha]

theorem nodeInfoStep_samplerFields_of_ks {info : NodeInfo}
    {p : String × JVal} (h : isKSNode p = true) :
    samplerFields (nodeInfoStep info p) =
      (jgetO (jget p.2 "inputs") "sampler_name",
       jgetO (jget p.2 "inputs") "steps",
       jgetO (jget p.2 "inputs") "cfg",
       jgetO (jget p.2 "inputs") "seed",
       jgetO (jget p.2 "inputs") "scheduler",
       jgetO (jget p.2 "inputs") "denoise") := by
  unfold isKSNode at h
  simp only [nodeInfoStep, h]
  split_ifs <;> simp_all [samplerFields]

theorem foldl_samplerFields_single_ks {l : List (String × JVal)}
    {kid : String} {kn : JVal} (h : l.filter isKSNode = [(kid, kn)])
    (info : NodeInfo) :
    samplerFields (l.foldl nodeInfoStep info) =
      (jgetO (jget kn "inputs") "sampler_name",
       jgetO (jget kn "inputs") "steps",
       jgetO (jget kn "inputs") "cfg",
       jgetO (jget kn "inputs") "seed",
       jgetO (jget kn "inputs") "scheduler",
       jgetO (jget kn "inputs") "denoise") := by
  induction l generalizing info with
  | nil => simp at h
  | cons a t ih =>
    rw [List.filter_cons] at h
    cases ha : isKSNode a with
    | true =>
      rw [ha] at h
      simp only [ite_true] at h
      injection h with h1 h2
      rw [List.foldl_cons, foldl_samplerFields_no_ks h2,
        nodeInfoStep_samplerFields_of_ks ha, h1]
    | false =>
      rw [ha] at h
      simp only [Bool.false_eq_true, ite_false] at h
      rw [List.foldl_cons, ih h]

/-- C2: in a graph with exactly one sampler node whose inputs set only
steps to 20, the parameter pass yields steps 20 and leaves cfg, seed,
scheduler, denoise (and the sampler name) missing; no field is synthesized
as 0 or an empty string. -/
theorem C2_missing_inputs_stay_null (fields : List (String × JVal))
    (kid : String) (kn : JVal)
    (hks : (forInOrder fields).filter isKSNode = [(kid, kn)])
    (hin : jget kn "inputs" = some (JVal.obj [("steps", JVal.num 20)])) :
    (extractNodeInfo (JVal.obj fields)).steps = some (JVal.num 20) ∧
    (extractNodeInfo (JVal.obj fields)).cfg = none ∧
    (extractNodeInfo (JVal.obj fields)).seed = none ∧
    (extractNodeInfo (JVal.obj fields)).scheduler = none ∧
    (extractNodeInfo (JVal.obj fields)).denoise = none ∧
    (extractNodeInfo (JVal.obj fields)).sampler = none := by
  have h := foldl_samplerFields_single_ks hks ({} : NodeInfo)
  rw [hin] at h
  simp only [samplerFields, Prod.mk.injEq] at h
  obtain ⟨hs, hst, hc, hse, hsc, hd⟩ := h
  exact ⟨hst, hc, hse, hsc, hd, hs⟩

/-- C2, witness at the concrete one-sampler graph. -/
theorem C2_missing_inputs_stay_null_witness :
    (extractNodeInfo (JVal.obj c2Fields)).steps = some (JVal.num 20) ∧
    (extractNodeInfo (JVal.obj c2Fields)).cfg = none ∧
    (extractNodeInfo (JVal.obj c2Fields)).seed = none ∧
    (extractNodeInfo (JVal.obj c2Fields)).scheduler = none ∧
    (extractNodeInfo (JVal.obj c2Fields)).denoise = none ∧
    (extractNodeInfo (JVal.obj c2Fields)).sampler = none :=
  C2_missing_inputs_stay_null c2Fields "3"
    (JVal.obj [("class_type", JVal.str "KSampler"),
      ("inputs", JVal.obj [("steps", JVal.num 20)])]) rfl rfl

theorem importStep_fst_extends (uid now : Nat) (st : List ImgRec × ImportResults)
    (f : SrcFile) : ∃ extra, (importStep uid now st f).1 = st.1 ++ extra := by
  cases h : exactMatch st.1 uid f.filename f.birthtimeMs
  · refine ⟨[ImgRec.mk uid
      (if nameMatch st.1 uid f.filename then renameWithTimestamp f.filename now
       else f.filename) f.birthtimeMs], ?_⟩
    simp only [importStep, h, Bool.false_eq_true, ite_false]
  · exact ⟨[], by simp [importStep, h]⟩

theorem importFold_fst_extends (uid now : Nat) (files : List SrcFile)
    (st : List ImgRec × ImportResults) :
    ∃ extra, (files.foldl (importStep uid now) st).1 = st.1 ++ extra := by
  induction files generalizing st with
  | nil => exact ⟨[], (List.append_nil _).symm⟩
  | cons f t ih =>
    obtain ⟨e2, h2⟩ := ih (importStep uid now st f)
    obtain ⟨e1, h1⟩ := importStep_fst_extends uid now st f
    exact ⟨e1 ++ e2, by rw [List.foldl_cons, h2, h1, List.append_assoc]⟩

theorem exactMatch_append {db : List ImgRec} {uid : Nat} {fn : String} {ts : Int}
    (extra : List ImgRec) (h : exactMatch db uid fn ts = true) :
    exactMatch (db ++ extra) uid fn ts = true := by
  unfold exactMatch at h ⊢
  rw [List.any_append, h, Bool.true_or]

theorem run_all_duplicates (uid now : Nat) (files : List SrcFile)
    (db : List ImgRec) (res : ImportResults)
    (h : ∀ f ∈ files, exactMatch db uid f.filename f.birthtimeMs = true) :
    files.foldl (importStep uid now) (db, res) =
      (db, ⟨res.imported, res.skipped + files.length⟩) := by
  induction files generalizing res with
  | nil => simp
  | cons f t ih =>
    have hf := h f (List.mem_cons_self f t)
    have hstep : importStep uid now (db, res) f =
        (db, ⟨res.imported, res.skipped + 1⟩) := by
      simp [importStep, hf]
    rw [List.foldl_cons, hstep,
      ih ⟨res.imported, res.skipped + 1⟩ fun g hg => h g (List.mem_cons_of_mem f hg)]
    have : res.skipped + 1 + t.length = res.skipped + (t.length + 1) := by omega
    rw [this, List.length_cons]

theorem run1_all_exact (uid now : Nat) (files : List SrcFile) (db : List ImgRec)
    (res : ImportResults)
    (hnames : files.Pairwise fun f g => f.filename ≠ g.filename)
    (hcompat : ∀ f ∈ files, ∀ r ∈ db, r.owner = uid → r.filename = f.filename →
      r.fileCreatedAt = f.birthtimeMs) :
    ∀ f ∈ files,
      exactMatch (files.foldl (importStep uid now) (db, res)).1 uid
        f.filename f.birthtimeMs = true := by
  induction files generalizing db res with
  | nil => intro f hf; simp at hf
  | cons g t ih =>
    intro f hf
    rw [List.mem_cons] at hf
    rw [List.foldl_cons]
    by_cases hex : exactMatch db uid g.filename g.birthtimeMs = true
    · have hstep : importStep uid now (db, res) g =
          (db, ⟨res.imported, res.skipped + 1⟩) := by
        simp [importStep, hex]
      rw [hstep]
      rcases hf with rfl | hf
      · obtain ⟨extra, he⟩ :=
          importFold_fst_extends uid now t (db, ⟨res.imported, res.skipped + 1⟩)
        rw [he]
        exact exactMatch_append extra hex
      · exact ih db ⟨res.imported, res.skipped + 1⟩ hnames.of_cons
          (fun x hx r hr => hcompat x (List.mem_cons_of_mem g hx) r hr) f hf
    · have hnm : nameMatch db uid g.filename = false := by
        rcases hm : nameMatch db uid g.filename with _ | _
        · rfl
        · exfalso
          unfold nameMatch at hm
          rw [List.any_eq_true] at hm
          obtain ⟨r, hr, hrp⟩ := hm
          rw [Bool.and_eq_true, decide_eq_true_eq, decide_eq_true_eq] at hrp
          have hts := hcompat g (List.mem_cons_self g t) r hr hrp.2 hrp.1
          apply hex
          unfold exactMatch
          rw [List.any_eq_true]
          exact ⟨r, hr, by simp [hrp.1, hrp.2, hts]⟩
      have hstep : importStep uid now (db, res) g =
          (db ++ [ImgRec.mk uid g.filename g.birthtimeMs],
           ⟨res.imported + 1, res.skipped⟩) := by
        simp [importStep, hex, hnm]
      rw [hstep]
      rcases hf with rfl | hf
      · obtain ⟨extra, he⟩ := importFold_fst_extends uid now t
          (db ++ [ImgRec.mk uid f.filename f.birthtimeMs],
           ⟨res.imported + 1, res.skipped⟩)
        rw [he]
        have hexg : exactMatch (db ++ [ImgRec.mk uid f.filename f.birthtimeMs]) uid
            f.filename f.birthtimeMs = true := by
          unfold exactMatch
          rw [List.any_append]
          simp
        exact exactMatch_append extra hexg
      · refine ih (db ++ [ImgRec.mk uid g.filename g.birthtimeMs])
          ⟨res.imported + 1, res.skipped⟩ hnames.of_cons ?_ f hf
        intro x hx r hr hro hrf
        rw [List.mem_append] at hr
        rcases hr with hr | hr
        · exact hcompat x (List.mem_cons_of_mem g hx) r hr hro hrf
        · exfalso
          rw [List.mem_singleton] at hr
          subst hr
          have hgx : g.filename ≠ x.filename :=
            (List.pairwise_cons.mp hnames).1 x hx
          exact hgx hrf

/-- C3, counterexample: a pre-existing record with the same filename but a
different origin timestamp makes the first run store the file under a
renamed filename, so the second run finds no exact match for the original
name and imports the unchanged file again instead of skipping it. -/
theorem C3_counterexample :
    (importRun 1 200 [⟨"a.png", 5⟩]
      (importRun 1 100 [⟨"a.png", 5⟩] [⟨1, "a.png", 0⟩]).1).2 =
      ⟨1, 0⟩ ∧ (⟨1, 0⟩ : ImportResults) ≠ ⟨0, 1⟩ :=
  ⟨rfl, by decide⟩

/-- C3, amended: re-importing an unchanged source directory skips every
candidate as an exact duplicate (imported 0, skipped equal to the number
of candidates), provided the first run stored every file under its
original name, that is, no pre-existing record of the owner shares a
candidate filename with a different origin timestamp (directory listings
give the candidates pairwise distinct names). -/
theorem C3_second_run_skips_all (uid now1 now2 : Nat) (files : List SrcFile)
    (db0 : List ImgRec)
    (hnames : files.Pairwise fun f g => f.filename ≠ g.filename)
    (hcompat : ∀ f ∈ files, ∀ r ∈ db0, r.owner = uid →
      r.filename = f.filename → r.fileCreatedAt = f.birthtimeMs) :
    (importRun uid now2 files (importRun uid now1 files db0).1).2 =
      ⟨0, files.length⟩ := by
  have hall := run1_all_exact uid now1 files db0 ⟨0, 0⟩ hnames hcompat
  unfold importRun
  rw [run_all_duplicates uid now2 files _ ⟨0, 0⟩ fun f hf => hall f hf]
  simp

/-- C3, witness for the amended theorem: one file imported into an empty
corpus and re-imported. -/
theorem C3_second_run_skips_all_witness :
    (importRun 1 300 [⟨"b.png", 7⟩] (importRun 1 100 [⟨"b.png", 7⟩] []).1).2 =
      ⟨0, 1⟩ :=
  C3_second_run_skips_all 1 100 300 [⟨"b.png", 7⟩] [] (by simp) (by simp)

/-- C5: for an owner with zero images the aggregation runs to completion
and every favorite-rate field of the response equals 0 (the empty-corpus
sections are empty lists, and the fixed histogram buckets carry count 0
with the guarded rate 0); no rate is ever a division by a zero total. -/
theorem C5_zero_images_zero_rates (corpus : List ImageRow) (uid : Nat)
    (h : rowsOf corpus uid = []) :
    ∀ x ∈ statsRates (rowsOf corpus uid), x = 0 := by
  rw [h]
  intro x hx
  have he : statsRates [] = [0, 0, 0, 0, 0, 0, 0, 0, 0, 0] := rfl
  rw [he] at hx
  simp at hx
  exact hx

/-- C5, witness: the aggregation for owner 1 over a corpus owned by
owner 2 yields the ten fixed bucket rates, all 0. -/
theorem C5_zero_images_zero_rates_witness :
    statsRates (rowsOf [c5Row] 1) = [0, 0, 0, 0, 0, 0, 0, 0, 0, 0] := by
  have hall := C5_zero_images_zero_rates [c5Row] 1 rfl
  have hmem : (0 : ℚ) ∈ statsRates (rowsOf [c5Row] 1) := by decide
  have h0 := hall 0 hmem
  rfl

theorem comboKey_perm {l1 l2 : List JVal} (h : List.Perm l1 l2) :
    comboKey l1 = comboKey l2 := by
  unfold comboKey
  have s1 : List.Sorted strLeP
      ((List.insertionSort jvalStrLe (l1.map loraNameVal)).map jsStr) :=
    List.Pairwise.map jsStr (fun _ _ hab => hab)
      (List.sorted_insertionSort jvalStrLe (l1.map loraNameVal))
  have s2 : List.Sorted strLeP
      ((List.insertionSort jvalStrLe (l2.map loraNameVal)).map jsStr) :=
    List.Pairwise.map jsStr (fun _ _ hab => hab)
      (List.sorted_insertionSort jvalStrLe (l2.map loraNameVal))
  have hp : List.Perm
      ((List.insertionSort jvalStrLe (l1.map loraNameVal)).map jsStr)
      ((List.insertionSort jvalStrLe (l2.map loraNameVal)).map jsStr) :=
    List.Perm.map jsStr
      ((List.perm_insertionSort jvalStrLe (l1.map loraNameVal)).trans
        ((h.map loraNameVal).trans
          (List.perm_insertionSort jvalStrLe (l2.map loraNameVal)).symm))
  rw [List.eq_of_perm_of_sorted hp s1 s2]

/-- C6: two records whose auxiliary-model name lists are permutations of
each other (two or more names) produce the same combination key, and
processing both rows increments one shared bucket of the combination map
to 2 rather than two separate buckets. -/
theorem C6_combo_permutation_invariant (l1 l2 : List JVal)
    (_hstr : ∀ v ∈ l1, ∃ s, v = JVal.str s)
    (hlen : 1 < l1.length) (hperm : List.Perm l1 l2) :
    comboKey l1 = comboKey l2 ∧
    loraCombosOf [some (JVal.arr l1), some (JVal.arr l2)] =
      [(comboKey l1, 2)] := by
  have hk := comboKey_perm hperm
  refine ⟨hk, ?_⟩
  have hlen2 : 1 < l2.length := hperm.length_eq ▸ hlen
  have h01 : 0 < l1.length := lt_trans Nat.zero_lt_one hlen
  have h02 : 0 < l2.length := lt_trans Nat.zero_lt_one hlen2
  unfold loraCombosOf
  rw [List.foldl_cons, List.foldl_cons, List.foldl_nil]
  simp only [loraRowStep, h01, h02, hlen, hlen2, if_true, ite_true, ← hk,
    jsMapIncrBy]
  simp

/-- C6, witness at the two-name lists X, Y and Y, X. -/
theorem C6_combo_permutation_invariant_witness :
    comboKey [JVal.str "X", JVal.str "Y"] =
      comboKey [JVal.str "Y", JVal.str "X"] ∧
    loraCombosOf [some (JVal.arr [JVal.str "X", JVal.str "Y"]),
                  some (JVal.arr [JVal.str "Y", JVal.str "X"])] =
      [(comboKey [JVal.str "X", JVal.str "Y"], 2)] :=
  C6_combo_permutation_invariant [JVal.str "X", JVal.str "Y"]
    [JVal.str "Y", JVal.str "X"]
    (by
      intro v hv
      rw [List.mem_cons, List.mem_singleton] at hv
      rcases hv with rfl | rfl
      · exact ⟨"X", rfl⟩
      · exact ⟨"Y", rfl⟩)
    (by decide)
    (List.Perm.swap (JVal.str "Y") (JVal.str "X") [])

theorem scanChunk_workflow_char (jp : String → Option JVal) (st : ScanState)
    (chunk : PngChunk) :
    (scanChunk jp st chunk).workflowData = st.workflowData ∨
    ∃ v w, chunk.name = "tEXt" ∧
      splitAtNull chunk.data = some ("workflow", v) ∧ jp v = some w ∧
      (scanChunk jp st chunk).workflowData = some w := by
  unfold scanChunk
  by_cases hn : chunk.name = "tEXt"
  · rw [if_pos hn]
    cases hsp : splitAtNull chunk.data with
    | none => exact Or.inl rfl
    | some kv =>
      obtain ⟨k, v⟩ := kv
      dsimp only
      by_cases hw : k = "workflow"
      · subst hw
        rw [if_pos rfl]
        cases hjp : jp v with
        | none => exact Or.inl rfl
        | some w => exact Or.inr ⟨v, w, hn, rfl, hjp, rfl⟩
      · rw [if_neg hw]
        by_cases hp : k = "prompt"
        · subst hp
          rw [if_pos rfl]
          cases hjp : jp v
          · exact Or.inl rfl
          · exact Or.inl rfl
        · rw [if_neg hp]
          exact Or.inl rfl
  · rw [if_neg hn]
    exact Or.inl rfl

theorem scanChunk_workflow_set (jp : String → Option JVal) (st : ScanState)
    (chunk : PngChunk) (v : String) (w : JVal) (hn : chunk.name = "tEXt")
    (hsp : splitAtNull chunk.data = some ("workflow", v))
    (hjp : jp v = some w) :
    (scanChunk jp st chunk).workflowData = some w := by
  simp [scanChunk, hn, hsp, hjp]

theorem scanFold_workflow_truthy (jp : String → Option JVal)
    (chunks : List PngChunk) (st : ScanState)
    (hall : ∀ c ∈ chunks, c.name = "tEXt" →
      ∀ v w, splitAtNull c.data = some ("workflow", v) → jp v = some w →
        jsTruthy w = true)
    (h : jsTruthyO st.workflowData = true) :
    jsTruthyO ((chunks.foldl (scanChunk jp) st).workflowData) = true := by
  induction chunks generalizing st with
  | nil => exact h
  | cons c t ih =>
    rw [List.foldl_cons]
    refine ih (scanChunk jp st c)
      (fun x hx => hall x (List.mem_cons_of_mem c hx)) ?_
    rcases scanChunk_workflow_char jp st c with hc | ⟨v, w, hn, hsp, hjp, hset⟩
    · rw [hc]
      exact h
    · rw [hset]
      exact hall c (List.mem_cons_self c t) hn v w hsp hjp

theorem scanFold_workflow_truthy_of_mem (jp : String → Option JVal)
    (chunks : List PngChunk) (st : ScanState)
    (hex : ∃ c ∈ chunks, c.name = "tEXt" ∧
      ∃ v w, splitAtNull c.data = some ("workflow", v) ∧ jp v = some w)
    (hall : ∀ c ∈ chunks, c.name = "tEXt" →
      ∀ v w, splitAtNull c.data = some ("workflow", v) → jp v = some w →
        jsTruthy w = true) :
    jsTruthyO ((chunks.foldl (scanChunk jp) st).workflowData) = true := by
  induction chunks generalizing st with
  | nil =>
    obtain ⟨c, hc, _⟩ := hex
    simp at hc
  | cons c t ih =>
    obtain ⟨c0, hc0, hn, v, w, hsp, hjp⟩ := hex
    rw [List.mem_cons] at hc0
    rw [List.foldl_cons]
    rcases hc0 with rfl | hc0
    · apply scanFold_workflow_truthy jp t _
        (fun x hx => hall x (List.mem_cons_of_mem c0 hx))
      rw [scanChunk_workflow_set jp st c0 v w hn hsp hjp]
      exact hall c0 (List.mem_cons_self c0 t) hn v w hsp hjp
    · exact ih (scanChunk jp st c) ⟨c0, hc0, hn, v, w, hsp, hjp⟩
        (fun x hx => hall x (List.mem_cons_of_mem c hx))

theorem scanChunk_prompt_none (jp : String → Option JVal) (st : ScanState)
    (chunk : PngChunk)
    (hfail : chunk.name = "tEXt" → ∀ v, splitAtNull chunk.data = some ("prompt", v) →
      jp v = none)
    (h : st.promptText = none) : (scanChunk jp st chunk).promptText = none := by
  unfold scanChunk
  by_cases hn : chunk.name = "tEXt"
  · rw [if_pos hn]
    cases hsp : splitAtNull chunk.data with
    | none => exact h
    | some kv =>
      obtain ⟨k, v⟩ := kv
      dsimp only
      by_cases hw : k = "workflow"
      · rw [if_pos hw]
        cases hjp : jp v
        · exact h
        · exact h
      · rw [if_neg hw]
        by_cases hp : k = "prompt"
        · subst hp
          rw [if_pos rfl, hfail hn v hsp]
          exact h
        · rw [if_neg hp]
          exact h
  · rw [if_neg hn]
    exact h

theorem scanFold_prompt_none (jp : String → Option JVal)
    (chunks : List PngChunk) (st : ScanState)
    (hfail : ∀ c ∈ chunks, c.name = "tEXt" →
      ∀ v, splitAtNull c.data = some ("prompt", v) → jp v = none)
    (h : st.promptText = none) :
    ((chunks.foldl (scanChunk jp) st).promptText) = none := by
  induction chunks generalizing st with
  | nil => exact h
  | cons c t ih =>
    rw [List.foldl_cons]
    exact ih (scanChunk jp st c)
      (fun x hx => hfail x (List.mem_cons_of_mem c hx))
      (scanChunk_prompt_none jp st c (hfail c (List.mem_cons_self c t)) h)

theorem scanChunk_irrelevant (jp : String → Option JVal) (st : ScanState)
    (chunk : PngChunk)
    (h : chunk.name = "tEXt" → ∀ kv, splitAtNull chunk.data = some kv →
      kv.1 ≠ "workflow" ∧ kv.1 ≠ "prompt") :
    scanChunk jp st chunk = st := by
  unfold scanChunk
  by_cases hn : chunk.name = "tEXt"
  · rw [if_pos hn]
    cases hsp : splitAtNull chunk.data with
    | none => rfl
    | some kv =>
      obtain ⟨k, v⟩ := kv
      obtain ⟨hw, hp⟩ := h hn (k, v) hsp
      replace hw : k ≠ "workflow" := hw
      replace hp : k ≠ "prompt" := hp
      dsimp only
      rw [if_neg hw, if_neg hp]
  · rw [if_neg hn]

theorem scanFold_irrelevant (jp : String → Option JVal)
    (chunks : List PngChunk) (st : ScanState)
    (h : ∀ c ∈ chunks, c.name = "tEXt" → ∀ kv, splitAtNull c.data = some kv →
      kv.1 ≠ "workflow" ∧ kv.1 ≠ "prompt") :
    chunks.foldl (scanChunk jp) st = st := by
  induction chunks generalizing st with
  | nil => rfl
  | cons c t ih =>
    rw [List.foldl_cons,
      scanChunk_irrelevant jp st c (h c (List.mem_cons_self c t))]
    exact ih st fun x hx => h x (List.mem_cons_of_mem c hx)

/-- C4, counterexample: a workflow chunk whose value is the document null
decodes successfully as valid JSON, and every prompt chunk fails to
decode, yet the flag stays false because the decoded workflow value is
falsy; so a decoded workflow alone does not give hasMetadata true as the
claim states. -/
theorem C4_counterexample :
    (parseComfyUIMetadata nullJp nullWfChunks).workflow = some JVal.null ∧
    (parseComfyUIMetadata nullJp nullWfChunks).prompt = none ∧
    (parseComfyUIMetadata nullJp nullWfChunks).hasMetadata = false :=
  ⟨rfl, rfl, rfl⟩

/-- C4, amended: a decode failure on one keyed-text chunk never aborts the
scan; if some workflow chunk decodes and every decoded workflow value is
truthy (every actual workflow graph is a JSON object, which is truthy)
while every prompt chunk fails to decode, the result has the metadata flag
set with a null prompt; and when no chunk carries the workflow or prompt
key at all, the result is the all-null record with the flag unset.  A
workflow chunk decoding to a falsy JSON value is decoded successfully but
leaves the flag unset. -/
theorem C4_malformed_chunk_tolerance (jp : String → Option JVal)
    (chunks : List PngChunk) :
    ((∃ c ∈ chunks, c.name = "tEXt" ∧
        ∃ v w, splitAtNull c.data = some ("workflow", v) ∧ jp v = some w) →
      (∀ c ∈ chunks, c.name = "tEXt" →
        ∀ v w, splitAtNull c.data = some ("workflow", v) → jp v = some w →
          jsTruthy w = true) →
      (∀ c ∈ chunks, c.name = "tEXt" →
        ∀ v, splitAtNull c.data = some ("prompt", v) → jp v = none) →
      (parseComfyUIMetadata jp chunks).hasMetadata = true ∧
      (parseComfyUIMetadata jp chunks).prompt = none) ∧
    ((∀ c ∈ chunks, c.name = "tEXt" → ∀ kv, splitAtNull c.data = some kv →
        kv.1 ≠ "workflow" ∧ kv.1 ≠ "prompt") →
      parseComfyUIMetadata jp chunks = ⟨none, none, none, false⟩) := by
  constructor
  · intro hw htr hp
    have h1 := scanFold_workflow_truthy_of_mem jp chunks {} hw htr
    have h2 := scanFold_prompt_none jp chunks {} hp rfl
    constructor
    · dsimp only [parseComfyUIMetadata]
      rw [h1, h2, Bool.true_or]
    · dsimp only [parseComfyUIMetadata]
      exact h2
  · intro hirr
    dsimp only [parseComfyUIMetadata]
    rw [scanFold_irrelevant jp chunks {} hirr]
    rfl

/-- C4, witness: the concrete container with a decodable workflow chunk
and an undecodable prompt chunk. -/
theorem C4_malformed_chunk_tolerance_witness :
    (parseComfyUIMetadata c4jp c4Chunks).hasMetadata = true ∧
    (parseComfyUIMetadata c4jp c4Chunks).prompt = none :=
  (C4_malformed_chunk_tolerance c4jp c4Chunks).1
    ⟨⟨"tEXt", ⟨("workflow" : String).data ++ Char.ofNat 0 :: ("\x7b\x7d" : String).data⟩⟩,
      List.mem_cons_self _ _, rfl, "\x7b\x7d", JVal.obj [], rfl, rfl⟩
    (by
      intro c hc
      unfold c4Chunks at hc
      rw [List.mem_cons, List.mem_singleton] at hc
      rcases hc with rfl | rfl
      · intro _ v w hv hjp
        rw [show splitAtNull
            (⟨("workflow" : String).data ++ Char.ofNat 0 :: ("\x7b\x7d" : String).data⟩ : String) =
            some ("workflow", "\x7b\x7d") from rfl] at hv
        injection hv with hv
        injection hv with hv1 hv2
        rw [← hv2] at hjp
        rw [show c4jp "\x7b\x7d" = some (JVal.obj []) from rfl] at hjp
        injection hjp with hjp
        rw [← hjp]
        rfl
      · intro _ v w hv hjp
        rw [show splitAtNull
            (⟨("prompt" : String).data ++ Char.ofNat 0 :: ("\x7bbad" : String).data⟩ : String) =
            some ("prompt", "\x7bbad") from rfl] at hv
        injection hv with hv
        injection hv with hv1 hv2
        exact absurd hv1 (by decide))
    (by
      intro c hc
      unfold c4Chunks at hc
      rw [List.mem_cons, List.mem_singleton] at hc
      rcases hc with rfl | rfl
      · intro _ v hv
        rw [show splitAtNull
            (⟨("workflow" : String).data ++ Char.ofNat 0 :: ("\x7b\x7d" : String).data⟩ : String) =
            some ("workflow", "\x7b\x7d") from rfl] at hv
        injection hv with hv
        injection hv with hv1 hv2
        exact absurd hv1 (by decide)
      · intro _ v hv
        rw [show splitAtNull
            (⟨("prompt" : String).data ++ Char.ofNat 0 :: ("\x7bbad" : String).data⟩ : String) =
            some ("prompt", "\x7bbad") from rfl] at hv
        injection hv with hv
        injection hv with hv1 hv2
        rw [← hv2]
        rfl)

/-- C10, counterexample: a workflow chunk decoding to the falsy JSON value
null makes the decoded workflow non-null while the metadata flag stays
false, so the flag is not equivalent to (workflow decoded successfully or
prompt non-empty). -/
theorem C10_counterexample :
    (parseComfyUIMetadata nullJp nullWfOnlyChunks).workflow = some JVal.null ∧
    some JVal.null ≠ (none : Option JVal) ∧
    (parseComfyUIMetadata nullJp nullWfOnlyChunks).hasMetadata = false :=
  ⟨rfl, Option.some_ne_none JVal.null, rfl⟩

/-- C10, amended: the metadata flag is the JavaScript truthiness of the
decoded workflow or of the extracted prompt text, so it is true exactly
when the decoded workflow value is truthy or the prompt text is a
non-empty string (a successfully decoded falsy workflow such as JSON null
does not set it); consequently a container whose only chunk is a valid
prompt graph without any text-encoding node yields hasMetadata false even
though the structured node information was extracted and is non-null. -/
theorem C10_hasMetadata_truthiness (jp : String → Option JVal)
    (chunks : List PngChunk) (v : String) (g : JVal) :
    ((parseComfyUIMetadata jp chunks).hasMetadata = true ↔
      (jsTruthyO (parseComfyUIMetadata jp chunks).workflow = true ∨
       ∃ s, (parseComfyUIMetadata jp chunks).prompt = some s ∧ s ≠ "")) ∧
    ((∀ p ∈ rawEntries g, classTypeIs p.2 "CLIPTextEncode" = false) →
      jp v = some g →
      (parseComfyUIMetadata jp
        [⟨"tEXt", ⟨("prompt" : String).data ++ Char.ofNat 0 :: v.data⟩⟩]).hasMetadata
        = false ∧
      (parseComfyUIMetadata jp
        [⟨"tEXt", ⟨("prompt" : String).data ++ Char.ofNat 0 :: v.data⟩⟩]).nodeInfo
        = some (extractNodeInfo g)) := by
  constructor
  · dsimp only [parseComfyUIMetadata]
    cases hw : (chunks.foldl (scanChunk jp) {}).workflowData with
    | some w =>
      cases ht : jsTruthy w with
      | true => simp [hw, ht, jsTruthyO]
      | false =>
        cases hp : (chunks.foldl (scanChunk jp) {}).promptText with
        | none => simp [hw, hp, ht, jsTruthyO]
        | some s =>
          by_cases hs : s = ""
          · subst hs
            simp [hw, hp, ht, jsTruthyO]
          · simp [hw, hp, ht, hs, jsTruthyO]
    | none =>
      cases hp : (chunks.foldl (scanChunk jp) {}).promptText with
      | none => simp [hp, jsTruthyO]
      | some s =>
        by_cases hs : s = ""
        · subst hs
          simp [hp, jsTruthyO]
        · simp [hp, hs, jsTruthyO]
  · intro hno hjp
    have hpt : extractPromptText g = "" := by
      unfold extractPromptText
      have hnil : (forInEntries g).filterMap (fun p => nodeTextContribution p.2) = [] := by
        rw [List.filterMap_eq_nil_iff]
        intro p hp
        have hraw : p ∈ rawEntries g := by
          unfold forInEntries forInOrder at hp
          rw [List.mem_append] at hp
          rcases hp with hp | hp
          · exact (List.mem_filter.mp ((List.mem_insertionSort keyLe).mp hp)).1
          · exact (List.mem_filter.mp hp).1
        simp [nodeTextContribution, hno p hraw]
      rw [hnil]
      rfl
    have hsp : splitAtNull ⟨("prompt" : String).data ++ Char.ofNat 0 :: v.data⟩ =
        some ("prompt", v) := rfl
    dsimp only [parseComfyUIMetadata]
    rw [List.foldl_cons, List.foldl_nil]
    unfold scanChunk
    rw [if_pos rfl, hsp]
    dsimp only
    rw [if_neg (by decide : ¬ ("prompt" : String) = "workflow"), if_pos rfl, hjp]
    dsimp only
    rw [hpt]
    constructor
    · rfl
    · rfl

/-- C10, witness: the concrete prompt-only container whose graph has no
text-encoding node yields no metadata flag but non-null node info. -/
theorem C10_hasMetadata_truthiness_witness :
    (parseComfyUIMetadata c10jp
      [⟨"tEXt", ⟨("prompt" : String).data ++ Char.ofNat 0 :: ("\x7b\x7dg" : String).data⟩⟩]).hasMetadata
      = false ∧
    (parseComfyUIMetadata c10jp
      [⟨"tEXt", ⟨("prompt" : String).data ++ Char.ofNat 0 :: ("\x7b\x7dg" : String).data⟩⟩]).nodeInfo
      = some (extractNodeInfo c10Graph) :=
  (C10_hasMetadata_truthiness c10jp [] "\x7b\x7dg" c10Graph).2
    (by decide) rfl

/-- C8, counterexample: a record group with cfg equal to 3 falls in both
the 1-3 bucket and the 3-5 bucket (the inclusive range bounds overlap at
3, 5, 7 and 10), so a record with such a CFG value contributes to two
buckets, not exactly one. -/
theorem C8_counterexample :
    (distributionOf cfgRanges [⟨3, 1, 0⟩]).map (fun b => b.count) = [1, 1, 0, 0, 0] ∧
    (cfgRanges.filter fun r => inBucket r (3 : ℚ)).length = 2 ∧
    (2 : Nat) ≠ 1 :=
  ⟨rfl, rfl, by decide⟩

theorem distributionOf_counts [LinearOrder α] (ranges : List (BucketRange α))
    (data : List (ParamGroup α)) :
    (distributionOf ranges data).map (fun b => b.count) = bucketCounts ranges data := by
  simp only [distributionOf, bucketCounts, List.map_map]
  rfl

theorem bucketCounts_cons_sum [LinearOrder α] (ranges : List (BucketRange α))
    (d : ParamGroup α) (t : List (ParamGroup α)) :
    (bucketCounts ranges (d :: t)).sum =
      (ranges.map fun r => if inBucket r d.value then d.count else 0).sum +
        (bucketCounts ranges t).sum := by
  unfold bucketCounts
  rw [← List.sum_map_add]
  congr 1
  apply List.map_congr_left
  intro r _
  by_cases hp : inBucket r d.value
  · simp [List.filter_cons, hp]
  · simp [List.filter_cons, hp]

theorem steps_ite_sum (d : ParamGroup Int) (h1 : 1 ≤ d.value)
    (h2 : d.value ≤ 999) :
    (stepsRanges.map fun r => if inBucket r d.value then d.count else 0).sum =
      d.count := by
  simp only [stepsRanges, List.map_cons, List.map_nil, List.sum_cons,
    List.sum_nil, inBucket, Bool.and_eq_true, decide_eq_true_eq]
  split_ifs <;> simp_all <;> omega

/-- C8, amended: the five steps buckets are pairwise disjoint and jointly
cover the integer steps values 1 to 999, so each such value group is
counted in exactly one bucket and the bucket counts sum to the total
count; the five CFG buckets overlap at the boundary values 3, 5, 7 and 10,
where a value is counted in exactly two buckets, and cover every other
value of the interval from 1 to 999 exactly once. -/
theorem C8_bucket_coverage :
    (∀ s : Int, 1 ≤ s → s ≤ 999 →
      (stepsRanges.filter fun r => inBucket r s).length = 1) ∧
    (∀ data : List (ParamGroup Int),
      (∀ d ∈ data, 1 ≤ d.value ∧ d.value ≤ 999) →
      ((distributionOf stepsRanges data).map (fun b => b.count)).sum =
        (data.map (fun d => d.count)).sum) ∧
    (∀ q : ℚ, 1 ≤ q → q ≤ 999 →
      (cfgRanges.filter fun r => inBucket r q).length =
        if q = 3 ∨ q = 5 ∨ q = 7 ∨ q = 10 then 2 else 1) := by
  refine ⟨?_, ?_, ?_⟩
  · intro s h1 h2
    simp only [stepsRanges, List.filter_cons, List.filter_nil, inBucket,
      Bool.and_eq_true, decide_eq_true_eq]
    split_ifs <;> simp_all <;> omega
  · intro data hall
    induction data with
    | nil => rfl
    | cons d t ih =>
      have hd := hall d (List.mem_cons_self d t)
      rw [distributionOf_counts, bucketCounts_cons_sum,
        steps_ite_sum d hd.1 hd.2, List.map_cons, List.sum_cons,
        ← distributionOf_counts,
        ih fun x hx => hall x (List.mem_cons_of_mem d hx)]
  · intro q h1 h2
    by_cases hb : q = 3 ∨ q = 5 ∨ q = 7 ∨ q = 10
    · rw [if_pos hb]
      rcases hb with rfl | rfl | rfl | rfl <;> decide
    · rw [if_neg hb]
      push_neg at hb
      obtain ⟨hq3, hq5, hq7, hq10⟩ := hb
      have hcase : (1 ≤ q ∧ q < 3) ∨ (3 < q ∧ q < 5) ∨ (5 < q ∧ q < 7) ∨
          (7 < q ∧ q < 10) ∨ (10 < q ∧ q ≤ 999) := by
        by_cases c3 : q < 3
        · exact Or.inl ⟨h1, c3⟩
        · have g3 : 3 < q := lt_of_le_of_ne (not_lt.mp c3) (Ne.symm hq3)
          by_cases c5 : q < 5
          · exact Or.inr (Or.inl ⟨g3, c5⟩)
          · have g5 : 5 < q := lt_of_le_of_ne (not_lt.mp c5) (Ne.symm hq5)
            by_cases c7 : q < 7
            · exact Or.inr (Or.inr (Or.inl ⟨g5, c7⟩))
            · have g7 : 7 < q := lt_of_le_of_ne (not_lt.mp c7) (Ne.symm hq7)
              by_cases c10 : q < 10
              · exact Or.inr (Or.inr (Or.inr (Or.inl ⟨g7, c10⟩)))
              · have g10 : 10 < q :=
                  lt_of_le_of_ne (not_lt.mp c10) (Ne.symm hq10)
                exact Or.inr (Or.inr (Or.inr (Or.inr ⟨g10, h2⟩)))
      simp only [cfgRanges, List.filter_cons, List.filter_nil, inBucket,
        Bool.and_eq_true, decide_eq_true_eq]
      rcases hcase with ⟨ha, hc⟩ | ⟨ha, hc⟩ | ⟨ha, hc⟩ | ⟨ha, hc⟩ | ⟨ha, hc⟩
      · rw [if_pos (show (1 : ℚ) ≤ q ∧ q ≤ 3 by constructor <;> linarith),
            if_neg (show ¬((3 : ℚ) ≤ q ∧ q ≤ 5) by rintro ⟨hx, hy⟩; linarith),
            if_neg (show ¬((5 : ℚ) ≤ q ∧ q ≤ 7) by rintro ⟨hx, hy⟩; linarith),
            if_neg (show ¬((7 : ℚ) ≤ q ∧ q ≤ 10) by rintro ⟨hx, hy⟩; linarith),
            if_neg (show ¬((10 : ℚ) ≤ q ∧ q ≤ 999) by rintro ⟨hx, hy⟩; linarith)]
        rfl
      · rw [if_neg (show ¬((1 : ℚ) ≤ q ∧ q ≤ 3) by rintro ⟨hx, hy⟩; linarith),
            if_pos (show (3 : ℚ) ≤ q ∧ q ≤ 5 by constructor <;> linarith),
            if_neg (show ¬((5 : ℚ) ≤ q ∧ q ≤ 7) by rintro ⟨hx, hy⟩; linarith),
            if_neg (show ¬((7 : ℚ) ≤ q ∧ q ≤ 10) by rintro ⟨hx, hy⟩; linarith),
            if_neg (show ¬((10 : ℚ) ≤ q ∧ q ≤ 999) by rintro ⟨hx, hy⟩; linarith)]
        rfl
      · rw [if_neg (show ¬((1 : ℚ) ≤ q ∧ q ≤ 3) by rintro ⟨hx, hy⟩; linarith),
            if_neg (show ¬((3 : ℚ) ≤ q ∧ q ≤ 5) by rintro ⟨hx, hy⟩; linarith),
            if_pos (show (5 : ℚ) ≤ q ∧ q ≤ 7 by constructor <;> linarith),
            if_neg (show ¬((7 : ℚ) ≤ q ∧ q ≤ 10) by rintro ⟨hx, hy⟩; linarith),
            if_neg (show ¬((10 : ℚ) ≤ q ∧ q ≤ 999) by rintro ⟨hx, hy⟩; linarith)]
        rfl
      · rw [if_neg (show ¬((1 : ℚ) ≤ q ∧ q ≤ 3) by rintro ⟨hx, hy⟩; linarith),
            if_neg (show ¬((3 : ℚ) ≤ q ∧ q ≤ 5) by rintro ⟨hx, hy⟩; linarith),
            if_neg (show ¬((5 : ℚ) ≤ q ∧ q ≤ 7) by rintro ⟨hx, hy⟩; linarith),
            if_pos (show (7 : ℚ) ≤ q ∧ q ≤ 10 by constructor <;> linarith),
            if_neg (show ¬((10 : ℚ) ≤ q ∧ q ≤ 999) by rintro ⟨hx, hy⟩; linarith)]
        rfl
      · rw [if_neg (show ¬((1 : ℚ) ≤ q ∧ q ≤ 3) by rintro ⟨hx, hy⟩; linarith),
            if_neg (show ¬((3 : ℚ) ≤ q ∧ q ≤ 5) by rintro ⟨hx, hy⟩; linarith),
            if_neg (show ¬((5 : ℚ) ≤ q ∧ q ≤ 7) by rintro ⟨hx, hy⟩; linarith),
            if_neg (show ¬((7 : ℚ) ≤ q ∧ q ≤ 10) by rintro ⟨hx, hy⟩; linarith),
            if_pos (show (10 : ℚ) ≤ q ∧ q ≤ 999 by constructor <;> linarith)]
        rfl

/-- C8, witness: steps value 20 falls in exactly one bucket, the single
group with steps 20 keeps its total across the buckets, and cfg 4 falls in
exactly one bucket. -/
theorem C8_bucket_coverage_witness :
    (stepsRanges.filter fun r => inBucket r (20 : Int)).length = 1 ∧
    ((distributionOf stepsRanges [⟨20, 2, 1⟩]).map (fun b => b.count)).sum =
      (([⟨20, 2, 1⟩] : List (ParamGroup Int)).map (fun d => d.count)).sum ∧
    (cfgRanges.filter fun r => inBucket r (4 : ℚ)).length =
      if (4 : ℚ) = 3 ∨ (4 : ℚ) = 5 ∨ (4 : ℚ) = 7 ∨ (4 : ℚ) = 10 then 2 else 1 :=
  ⟨C8_bucket_coverage.1 20 (by decide) (by decide),
   C8_bucket_coverage.2.1 [⟨20, 2, 1⟩] (by
     intro d hd
     rw [List.mem_singleton] at hd
     subst hd
     exact ⟨by decide, by decide⟩),
   C8_bucket_coverage.2.2 4 (by decide) (by decide)⟩

theorem eq_of_mem_tagIf {t tag : String} {c : Bool} (h : t ∈ tagIf c tag) :
    t = tag := by
  unfold tagIf at h
  split_ifs at h
  · rw [List.mem_singleton] at h
    exact h
  · simp at h

theorem hasPrefixC_iff (p t : List Char) : hasPrefixC p t = true ↔ p <+: t := by
  induction p generalizing t with
  | nil => simp [hasPrefixC]
  | cons a as ih =>
    cases t with
    | nil =>
      simp only [hasPrefixC, List.prefix_nil]
      simp
    | cons b bs =>
      simp only [hasPrefixC, List.cons_prefix_cons]
      by_cases hab : a = b
      · rw [if_pos hab, ih]
        simp [hab]
      · rw [if_neg hab]
        simp [hab]

theorem hasInfixC_iff (p t : List Char) : hasInfixC p t = true ↔ p <:+: t := by
  induction t with
  | nil =>
    simp [hasInfixC, List.infix_nil, List.isEmpty_iff]
  | cons c cs ih =>
    simp only [hasInfixC, Bool.or_eq_true, hasPrefixC_iff, ih,
      List.infix_cons_iff]

theorem includes_rating_of_content (line : String)
    (h : jsIncludes line "content rating:" = true) :
    jsIncludes line "rating:" = true := by
  rw [jsIncludes, hasInfixC_iff] at h ⊢
  exact List.IsInfix.trans ⟨("content " : String).data, [], by decide⟩ h

theorem ratingLineTags_of_no_rating (line : String)
    (h : jsIncludes line "rating:" = false) : ratingLineTags line = ([], false) := by
  have h2 : jsIncludes line "content rating:" = false := by
    cases hc : jsIncludes line "content rating:"
    · rfl
    · have := includes_rating_of_content line hc
      rw [h] at this
      exact absurd this (by decide)
  unfold ratingLineTags
  rw [h, h2]
  rfl

theorem clothingTags_not_rating (line t : String) (h : t ∈ clothingTags line) :
    isRatingTag t = false := by
  unfold clothingTags at h
  split_ifs at h
  · simp only [List.mem_append, or_assoc] at h
    rcases h with h | h | h | h | h | h | h | h <;>
      (rw [eq_of_mem_tagIf h]; decide)
  · simp at h

theorem settingTags_not_rating (line t : String) (h : t ∈ settingTags line) :
    isRatingTag t = false := by
  unfold settingTags at h
  split_ifs at h
  · simp only [List.mem_append, or_assoc] at h
    rcases h with h | h | h | h | h | h <;> (rw [eq_of_mem_tagIf h]; decide)
  · simp at h

theorem poseTags_not_rating (line t : String) (h : t ∈ poseTags line) :
    isRatingTag t = false := by
  unfold poseTags at h
  split_ifs at h
  · simp only [List.mem_append, or_assoc] at h
    rcases h with h | h | h | h <;> (rw [eq_of_mem_tagIf h]; decide)
  · simp at h

theorem moodTags_not_rating (line t : String) (h : t ∈ moodTags line) :
    isRatingTag t = false := by
  unfold moodTags at h
  split_ifs at h
  · simp only [List.mem_append, or_assoc] at h
    rcases h with h | h | h | h | h <;> (rw [eq_of_mem_tagIf h]; decide)
  · simp at h

theorem lineTags_no_rating (line : String)
    (h : jsIncludes line "rating:" = false) :
    (∀ t ∈ (lineTags line).1, isRatingTag t = false) ∧
    (lineTags line).2 = false := by
  unfold lineTags
  rw [ratingLineTags_of_no_rating line h]
  constructor
  · intro t ht
    simp only [List.append_nil, List.mem_append, or_assoc] at ht
    rcases ht with ht | ht | ht | ht
    · exact clothingTags_not_rating line t ht
    · exact settingTags_not_rating line t ht
    · exact poseTags_not_rating line t ht
    · exact moodTags_not_rating line t ht
  · rfl

theorem collectFold_no_rating (lines : List String)
    (hno : ∀ line ∈ lines, jsIncludes line "rating:" = false)
    (st : List String × Bool)
    (hst1 : ∀ t ∈ st.1, isRatingTag t = false) (hst2 : st.2 = false) :
    (∀ t ∈ (lines.foldl collectStep st).1, isRatingTag t = false) ∧
    (lines.foldl collectStep st).2 = false := by
  induction lines generalizing st with
  | nil => exact ⟨hst1, hst2⟩
  | cons line rest ih =>
    rw [List.foldl_cons]
    have hl := lineTags_no_rating line (hno line (List.mem_cons_self line rest))
    apply ih (fun x hx => hno x (List.mem_cons_of_mem line hx))
    · intro t ht
      unfold collectStep at ht
      rw [List.mem_append] at ht
      rcases ht with ht | ht
      · exact hst1 t ht
      · exact hl.1 t ht
    · unfold collectStep
      rw [hst2, hl.2]
      rfl

theorem dedupAux_filter_singleton (p : String → Bool) (l : List String)
    (d : String) (seen : List String)
    (hl : ∀ t ∈ l, p t = false) (hd : p d = true) (hseen : d ∉ seen) :
    (jsDedupAux (l ++ [d]) seen).filter p = [d] := by
  induction l generalizing seen with
  | nil =>
    simp only [List.nil_append, jsDedupAux]
    have hc : seen.contains d = false := by
      cases hcc : seen.contains d
      · rfl
      · exfalso
        apply hseen
        simpa using hcc
    rw [hc]
    simp [jsDedupAux, hd]
  | cons a t ih =>
    simp only [List.cons_append, jsDedupAux]
    have hpa : p a = false := hl a (List.mem_cons_self a t)
    cases hc : seen.contains a
    · simp only [Bool.false_eq_true, if_false]
      rw [List.filter_cons, hpa]
      simp only [Bool.false_eq_true, if_false]
      apply ih (a :: seen) (fun x hx => hl x (List.mem_cons_of_mem a hx))
      rw [List.mem_cons]
      rintro (rfl | hm)
      · rw [hd] at hpa
        exact absurd hpa (by decide)
      · exact hseen hm
    · simp only [if_true]
      exact ih seen (fun x hx => hl x (List.mem_cons_of_mem a hx)) hseen

theorem isRatingTag_defaultRating (tags : List String) :
    isRatingTag (defaultRating tags) = true := by
  unfold defaultRating
  split_ifs <;> decide

/-- C9, counterexample: a response with two explicit rating lines (pg and
explicit) produces two distinct rating tags, so the matcher does not
always produce exactly one rating tag. -/
theorem C9_counterexample :
    ratingTags (parseAIResponse "rating: pg\nrating: explicit") =
      ["Rated: PG", "Rated: X"] ∧
    (ratingTags (parseAIResponse "rating: pg\nrating: explicit")).length = 2 ∧
    (2 : Nat) ≠ 1 :=
  ⟨rfl, rfl, by decide⟩

/-- C9, amended: when no line of the response contains a rating label, the
matcher produces exactly one rating tag, namely the default implied by the
detected clothing tags with the most severe rating winning (nude gives
Rated X, else topless, lingerie or underwear give Rated R, else Rated PG,
as the defaultRating definition spells out); with explicit rating lines at
least one rating tag results, but several distinct rating lines can each
contribute one. -/
theorem C9_default_rating (aiText : String)
    (h : ∀ line ∈ jsSplitLines (jsLower aiText),
      jsIncludes line "rating:" = false) :
    ratingTags (parseAIResponse aiText) =
      [defaultRating (collectTags (jsSplitLines (jsLower aiText))).1] := by
  have hinv := collectFold_no_rating (jsSplitLines (jsLower aiText)) h
    ([], false) (by simp) rfl
  unfold parseAIResponse jsDedup collectTags
  dsimp only
  rw [hinv.2]
  simp only [Bool.false_eq_true, if_false]
  unfold ratingTags
  exact dedupAux_filter_singleton isRatingTag _ _ []
    hinv.1 (isRatingTag_defaultRating _) (by simp)

/-- C9, witness: a clothing-only response gets exactly the default rating
implied by its clothing tag. -/
theorem C9_default_rating_witness :
    ratingTags (parseAIResponse "CLOTHING: topless") =
      [defaultRating (collectTags (jsSplitLines (jsLower "CLOTHING: topless"))).1] :=
  C9_default_rating "CLOTHING: topless" (by decide)

theorem mem_dedupFirstAux [DecidableEq α] {a : α} (l seen : List α) :
    a ∈ dedupFirstAux l seen ↔ a ∈ l ∧ a ∉ seen := by
  induction l generalizing seen with
  | nil => simp [dedupFirstAux]
  | cons b t ih =>
    unfold dedupFirstAux
    cases hb : seen.contains b
    · have hbseen : b ∉ seen := by simpa using hb
      simp only [Bool.false_eq_true, if_false, List.mem_cons, ih (b :: seen)]
      constructor
      · rintro (rfl | ⟨hat, hnot⟩)
        · exact ⟨Or.inl rfl, hbseen⟩
        · exact ⟨Or.inr hat, fun hs => hnot (Or.inr hs)⟩
      · rintro ⟨hmem, hns⟩
        rcases hmem with rfl | hmem
        · exact Or.inl rfl
        · by_cases hab : a = b
          · exact Or.inl hab
          · refine Or.inr ⟨hmem, ?_⟩
            rintro (rfl | hs)
            · exact hab rfl
            · exact hns hs
    · have hbseen : b ∈ seen := by simpa using hb
      simp only [if_true, ih seen, List.mem_cons]
      constructor
      · rintro ⟨hat, hns⟩
        exact ⟨Or.inr hat, hns⟩
      · rintro ⟨hmem, hns⟩
        rcases hmem with rfl | hmem
        · exact absurd hbseen hns
        · exact ⟨hmem, hns⟩

theorem mem_dedupFirst [DecidableEq α] {a : α} (l : List α) :
    a ∈ dedupFirst l ↔ a ∈ l := by
  unfold dedupFirst
  rw [mem_dedupFirstAux]
  simp

theorem nodup_dedupFirstAux [DecidableEq α] (l seen : List α) :
    (dedupFirstAux l seen).Nodup := by
  induction l generalizing seen with
  | nil => simp [dedupFirstAux]
  | cons b t ih =>
    unfold dedupFirstAux
    cases hb : seen.contains b
    · simp only [Bool.false_eq_true, if_false]
      rw [List.nodup_cons]
      refine ⟨?_, ih (b :: seen)⟩
      intro hmem
      rw [mem_dedupFirstAux] at hmem
      exact hmem.2 (List.mem_cons_self b seen)
    · simp only [if_true]
      exact ih seen

theorem nodup_dedupFirst [DecidableEq α] (l : List α) : (dedupFirst l).Nodup :=
  nodup_dedupFirstAux l []

theorem filterMap_ite_eq_filter_map (p : α → Bool) (f : α → β) (l : List α) :
    (l.filterMap fun a => if p a then some (f a) else none) =
      (l.filter p).map f := by
  induction l with
  | nil => rfl
  | cons a t ih =>
    by_cases h : p a <;>
      simp [List.filterMap_cons, List.filter_cons, h, ih]

/-- C7, counterexample: a corpus whose only image falls on a Monday yields
a single day-of-week bucket, not 7 fixed buckets, because the GROUP BY
query emits no row for a weekday with zero images. -/
theorem C7_counterexample :
    (timeInsights [c7Row]).generationsByDayOfWeek = [⟨"Mon", 1⟩] ∧
    (timeInsights [c7Row]).generationsByDayOfWeek.length = 1 ∧
    (1 : Nat) ≠ 7 :=
  ⟨rfl, rfl, by decide⟩

/-- C7, amended: the by-month output is chronologically sorted, holds at
most 12 entries with correct per-month counts, and any month with images
that is missing from it is older than every listed month (which can only
happen when 12 are listed); the by-day-of-week output lists, Sunday-first
in ascending weekday order, exactly the weekdays that have at least one
image, so a weekday with zero images yields no bucket and 7 buckets appear
only when every weekday is populated. -/
theorem C7_time_insights (rows : List ImageRow)
    (hdow : ∀ r ∈ rows, r.dow < 7) :
    ((timeInsights rows).generationsByMonth.Pairwise
      fun a b => jsLe a.month b.month = true) ∧
    (timeInsights rows).generationsByMonth.length ≤ 12 ∧
    (∀ e ∈ (timeInsights rows).generationsByMonth,
      e.count = (rows.filter fun r => r.month = e.month).length ∧
      e.month ∈ rows.map fun r => r.month) ∧
    (∀ m ∈ rows.map fun r => r.month,
      m ∉ (timeInsights rows).generationsByMonth.map (fun e => e.month) →
      ((timeInsights rows).generationsByMonth.length = 12 ∧
       ∀ e ∈ (timeInsights rows).generationsByMonth,
         jsLe m e.month = true)) ∧
    ((timeInsights rows).generationsByDayOfWeek =
      (List.range 7).filterMap fun d =>
        if 0 < (rows.filter fun r => r.dow = d).length then
          some ⟨dayName d, (rows.filter fun r => r.dow = d).length⟩
        else none) := by
  have hgm : (timeInsights rows).generationsByMonth =
      ((List.insertionSort (byStrGe fun m : MonthCount => m.month)
        ((dedupFirst (rows.map fun r => r.month)).map fun m =>
          ⟨m, (rows.filter fun r => r.month = m).length⟩)).take 12).reverse := rfl
  set S := List.insertionSort (byStrGe fun m : MonthCount => m.month)
    ((dedupFirst (rows.map fun r => r.month)).map fun m =>
      ⟨m, (rows.filter fun r => r.month = m).length⟩) with hS
  have hSsorted : S.Pairwise (byStrGe fun m : MonthCount => m.month) :=
    List.sorted_insertionSort (byStrGe fun m : MonthCount => m.month) _
  refine ⟨?_, ?_, ?_, ?_, ?_⟩
  · rw [hgm, List.pairwise_reverse]
    exact hSsorted.sublist (List.take_sublist 12 S)
  · rw [hgm, List.length_reverse, List.length_take]
    exact min_le_left 12 S.length
  · intro e he
    rw [hgm, List.mem_reverse] at he
    have he2 : e ∈ S := List.mem_of_mem_take he
    rw [hS, List.mem_insertionSort] at he2
    obtain ⟨m, hm, rfl⟩ := List.mem_map.mp he2
    exact ⟨rfl, (mem_dedupFirst _).mp hm⟩
  · intro m hm hnot
    have hmD : m ∈ dedupFirst (rows.map fun r => r.month) :=
      (mem_dedupFirst _).mpr hm
    have hemS : (⟨m, (rows.filter fun r => r.month = m).length⟩ : MonthCount) ∈ S := by
      rw [hS, List.mem_insertionSort]
      exact List.mem_map.mpr ⟨m, hmD, rfl⟩
    have hsplit : (⟨m, (rows.filter fun r => r.month = m).length⟩ : MonthCount) ∈
        S.take 12 ∨ (⟨m, (rows.filter fun r => r.month = m).length⟩ : MonthCount) ∈
        S.drop 12 := by
      rw [← List.mem_append, List.take_append_drop]
      exact hemS
    rcases hsplit with htk | hdr
    · exfalso
      apply hnot
      rw [hgm]
      exact List.mem_map.mpr
        ⟨⟨m, (rows.filter fun r => r.month = m).length⟩,
         List.mem_reverse.mpr htk, rfl⟩
    · have hlen : 12 < S.length := by
        by_contra hle
        push_neg at hle
        rw [List.drop_eq_nil_iff.mpr hle] at hdr
        exact absurd hdr (List.not_mem_nil _)
      constructor
      · rw [hgm, List.length_reverse, List.length_take]
        omega
      · intro e he
        rw [hgm, List.mem_reverse] at he
        have hpw2 : (S.take 12 ++ S.drop 12).Pairwise
            (byStrGe fun m : MonthCount => m.month) := by
          rw [List.take_append_drop]
          exact hSsorted
        exact (List.pairwise_append.mp hpw2).2.2 e he
          ⟨m, (rows.filter fun r => r.month = m).length⟩ hdr
  · have key : List.insertionSort (fun a b : Nat => a ≤ b)
        (dedupFirst (rows.map fun r => r.dow)) =
        (List.range 7).filter fun d => decide (d ∈ rows.map fun r => r.dow) := by
      have hperm1 : List.Perm
          (List.insertionSort (fun a b : Nat => a ≤ b)
            (dedupFirst (rows.map fun r => r.dow)))
          ((List.range 7).filter fun d =>
            decide (d ∈ rows.map fun r => r.dow)) := by
        refine (List.perm_insertionSort _ _).trans ?_
        rw [List.perm_ext_iff_of_nodup (nodup_dedupFirst _)
          ((List.nodup_range 7).filter _)]
        intro x
        rw [mem_dedupFirst, List.mem_filter, List.mem_range, decide_eq_true_eq]
        constructor
        · intro hx
          obtain ⟨r, hr, rfl⟩ := List.mem_map.mp hx
          exact ⟨hdow r hr, hx⟩
        · rintro ⟨_, hx⟩
          exact hx
      have hs1 : List.Sorted (fun a b : Nat => a ≤ b)
          (List.insertionSort (fun a b : Nat => a ≤ b)
            (dedupFirst (rows.map fun r => r.dow))) :=
        List.sorted_insertionSort (fun a b : Nat => a ≤ b) _
      have hs2 : List.Sorted (fun a b : Nat => a ≤ b)
          ((List.range 7).filter fun d =>
            decide (d ∈ rows.map fun r => r.dow)) :=
        ((List.pairwise_lt_range 7).filter _).imp fun h => le_of_lt h
      exact List.eq_of_perm_of_sorted hperm1 hs1 hs2
    have hform : (timeInsights rows).generationsByDayOfWeek =
        (List.insertionSort (fun a b : Nat => a ≤ b)
          (dedupFirst (rows.map fun r => r.dow))).map
          (fun d => ⟨dayName d, (rows.filter fun r => r.dow = d).length⟩) := rfl
    rw [hform, key, ← filterMap_ite_eq_filter_map]
    apply List.filterMap_congr
    intro d _
    by_cases hd : d ∈ rows.map fun r => r.dow
    · rw [if_pos (by rw [decide_eq_true_eq]; exact hd),
        if_pos ?_]
      obtain ⟨r, hr, rfl⟩ := List.mem_map.mp hd
      apply List.length_pos_iff_exists_mem.mpr
      exact ⟨r, List.mem_filter.mpr ⟨hr, by simp⟩⟩
    · have hnil : (rows.filter fun r => r.dow = d) = [] := by
        rw [List.filter_eq_nil_iff]
        intro r hr hrd
        apply hd
        rw [decide_eq_true_eq] at hrd
        exact List.mem_map.mpr ⟨r, hr, hrd⟩
      rw [if_neg (by rw [decide_eq_true_eq]; exact hd),
        if_neg (by rw [hnil]; simp)]

/-- C7, witness for the amended theorem at the one-Monday corpus. -/
theorem C7_time_insights_witness :
    ((timeInsights [c7Row]).generationsByMonth.Pairwise
      fun a b => jsLe a.month b.month = true) ∧
    (timeInsights [c7Row]).generationsByMonth.length ≤ 12 ∧
    (∀ e ∈ (timeInsights [c7Row]).generationsByMonth,
      e.count = ([c7Row].filter fun r => r.month = e.month).length ∧
      e.month ∈ [c7Row].map fun r => r.month) ∧
    (∀ m ∈ [c7Row].map fun r => r.month,
      m ∉ (timeInsights [c7Row]).generationsByMonth.map (fun e => e.month) →
      ((timeInsights [c7Row]).generationsByMonth.length = 12 ∧
       ∀ e ∈ (timeInsights [c7Row]).generationsByMonth,
         jsLe m e.month = true)) ∧
    ((timeInsights [c7Row]).generationsByDayOfWeek =
      (List.range 7).filterMap fun d =>
        if 0 < ([c7Row].filter fun r => r.dow = d).length then
          some ⟨dayName d, ([c7Row].filter fun r => r.dow = d).length⟩
        else none) :=
  C7_time_insights [c7Row] (by decide)
